import Mathlib

/-!
Verification of the Codex bridge service: the request-body adapter
(`codexRequestAdapter.js`), the Anthropic→Codex request translator, the
Codex→Anthropic response translator and the streaming SSE converter
(`codexMessagesService`-style bridge file).

The JavaScript is embedded shallowly:

* `JsValue` models a JSON-decoded JavaScript value (no functions, no NaN:
  no claim involves them).
* Member access `a.b` on a possibly `null`/`undefined` value is modelled by
  `getProp`, which returns `Except Unit JsValue` and fails on nullish
  receivers exactly where JavaScript throws a TypeError.  Accesses the
  source guards (`x || {}` or a preceding truthiness check) use the total
  `jsGet`.
* Random identifiers (`crypto.randomBytes(n).toString('hex')`) are modelled
  by an explicit byte supply `bytes : Nat → Nat`, read at an index carried
  in the relevant state; byte `i` is `bytes i % 256`.
* JavaScript string methods (`trim`, `trimStart`, `toLowerCase`,
  `startsWith`, `lastIndexOf`) are modelled on ASCII data, which every
  concrete input below uses.
-/

mutual
/-- A JSON-decoded JavaScript value.  Arrays and objects carry their own
list types (`JsArr`, `JsFields`) so that recursion over values stays
structural and kernel-reducible. -/
inductive JsValue where
  | vUndefined : JsValue
  | vNull : JsValue
  | vBool : Bool → JsValue
  | vNum : Int → JsValue
  | vStr : String → JsValue
  | vArr : JsArr → JsValue
  | vObj : JsFields → JsValue
deriving DecidableEq

/-- The elements of a JavaScript array value. -/
inductive JsArr where
  | nil : JsArr
  | cons : JsValue → JsArr → JsArr
deriving DecidableEq

/-- The own enumerable fields of a JavaScript object value. -/
inductive JsFields where
  | fnil : JsFields
  | fcons : String → JsValue → JsFields → JsFields
deriving DecidableEq
end

/-- `JsArr` as a plain list. -/
def JsArr.toList : JsArr → List JsValue
  | .nil => []
  | .cons x xs => x :: JsArr.toList xs

/-- A plain list as a `JsArr`. -/
def JsArr.ofList : List JsValue → JsArr
  | [] => .nil
  | x :: xs => .cons x (JsArr.ofList xs)

/-- `JsFields` as a plain association list. -/
def JsFields.toList : JsFields → List (String × JsValue)
  | .fnil => []
  | .fcons k v fs => (k, v) :: JsFields.toList fs

/-- A plain association list as `JsFields`. -/
def JsFields.ofList : List (String × JsValue) → JsFields
  | [] => .fnil
  | (k, v) :: fs => .fcons k v (JsFields.ofList fs)

/-- An array literal. -/
def jsArr (xs : List JsValue) : JsValue := .vArr (JsArr.ofList xs)

/-- An object literal. -/
def jsObj (fs : List (String × JsValue)) : JsValue := .vObj (JsFields.ofList fs)

theorem jsArr_toList_ofList (xs : List JsValue) : (JsArr.ofList xs).toList = xs := by
  induction xs with
  | nil => rfl
  | cons x xs ih => simp [JsArr.ofList, JsArr.toList, ih]

theorem jsFields_toList_ofList (fs : List (String × JsValue)) :
    (JsFields.ofList fs).toList = fs := by
  induction fs with
  | nil => rfl
  | cons p fs ih => cases p; simp [JsFields.ofList, JsFields.toList, ih]

/-- JavaScript truthiness (`if (v)`), restricted to `JsValue`. -/
def truthy : JsValue → Bool
  | .vUndefined => false
  | .vNull => false
  | .vBool b => b
  | .vNum n => n != 0
  | .vStr s => s ≠ ""
  | .vArr _ => true
  | .vObj _ => true

/-- JavaScript `typeof v`. -/
def typeOf : JsValue → String
  | .vUndefined => "undefined"
  | .vNull => "object"
  | .vBool _ => "boolean"
  | .vNum _ => "number"
  | .vStr _ => "string"
  | .vArr _ => "object"
  | .vObj _ => "object"

/-- JavaScript `a || b`. -/
def jsOr (a b : JsValue) : JsValue := if truthy a then a else b

/-- The own enumerable string-keyed fields of a value: an object's fields,
an array's elements under their index keys, nothing for primitives. -/
def objFieldsOf : JsValue → List (String × JsValue)
  | .vObj fs => fs.toList
  | .vArr xs => (xs.toList.enum.map fun p => (toString p.1, p.2))
  | _ => []

/-- Field lookup on a list of object fields. -/
def findField (fs : List (String × JsValue)) (k : String) : Option JsValue :=
  match fs with
  | [] => none
  | (k₀, v₀) :: rest => if k₀ = k then some v₀ else findField rest k

/-- Total member access `v.k`: `undefined` when missing or when the receiver
is a primitive.  Used only where the source has already guarded the receiver
against `null`/`undefined` (for example after `x || {}`). -/
def jsGet (v : JsValue) (k : String) : JsValue :=
  (findField (objFieldsOf v) k).getD .vUndefined

/-- Member access `v.k` as JavaScript evaluates it: a TypeError (modelled as
`Except.error ()`) on a nullish receiver, otherwise `jsGet`. -/
def getProp (v : JsValue) (k : String) : Except Unit JsValue :=
  match v with
  | .vNull => .error ()
  | .vUndefined => .error ()
  | _ => .ok (jsGet v k)

/-- Optional chaining `v?.k`: `undefined` on a nullish receiver. -/
def optChain (v : JsValue) (k : String) : JsValue :=
  match v with
  | .vNull => .vUndefined
  | .vUndefined => .vUndefined
  | _ => jsGet v k

/-- `Object.prototype.hasOwnProperty.call(fields, k)`. -/
def hasOwnField : List (String × JsValue) → String → Bool
  | [], _ => false
  | (k₀, _) :: rest, k => k₀ = k || hasOwnField rest k

/-- `delete fields[k]`. -/
def jsDeleteField : List (String × JsValue) → String → List (String × JsValue)
  | [], _ => []
  | (k₀, v₀) :: rest, k =>
    if k₀ = k then jsDeleteField rest k else (k₀, v₀) :: jsDeleteField rest k

/-- Replace the value stored under an existing key. -/
def replaceField : List (String × JsValue) → String → JsValue → List (String × JsValue)
  | [], _, _ => []
  | (k₀, v₀) :: rest, k, v =>
    if k₀ = k then (k, v) :: replaceField rest k v
    else (k₀, v₀) :: replaceField rest k v

/-- `fields[k] = v`: update in place when the key exists, append otherwise. -/
def jsSetField (fs : List (String × JsValue)) (k : String) (v : JsValue) :
    List (String × JsValue) :=
  if hasOwnField fs k then replaceField fs k v else fs ++ [(k, v)]

/-- ASCII whitespace. -/
def charWhitespace (c : Char) : Bool := c = ' ' ∨ c = '\t' ∨ c = '\n' ∨ c = '\r'

/-- ASCII model of JavaScript whitespace trimming (`String.prototype.trim`). -/
def jsTrim (s : String) : String :=
  String.mk (((s.data.dropWhile charWhitespace).reverse.dropWhile charWhitespace).reverse)

/-- ASCII model of `String.prototype.trimStart`. -/
def jsTrimStart (s : String) : String := String.mk (s.data.dropWhile charWhitespace)

/-- `s.startsWith(pfx)`. -/
def strStartsWith (s pfx : String) : Bool := pfx.data.isPrefixOf s.data

/-- ASCII model of `String.prototype.toLowerCase`. -/
def jsToLowerStr (s : String) : String := String.mk (s.data.map Char.toLower)

mutual
/-- JavaScript `String(v)` coercion (used for property keys and array
joins); objects render as `[object Object]`. -/
def propKey : JsValue → String
  | .vUndefined => "undefined"
  | .vNull => "null"
  | .vBool true => "true"
  | .vBool false => "false"
  | .vNum n => toString n
  | .vStr s => s
  | .vArr xs => propKeyJoin xs
  | .vObj _ => "[object Object]"

/-- `Array.prototype.join(',')` under `String` coercion; `null` and
`undefined` elements render empty. -/
def propKeyJoin : JsArr → String
  | .nil => ""
  | .cons .vNull .nil => ""
  | .cons .vUndefined .nil => ""
  | .cons x .nil => propKey x
  | .cons .vNull (.cons y rest) => "," ++ propKeyJoin (.cons y rest)
  | .cons .vUndefined (.cons y rest) => "," ++ propKeyJoin (.cons y rest)
  | .cons x (.cons y rest) => propKey x ++ "," ++ propKeyJoin (.cons y rest)
end

/-- One element as `join` renders it: nullish elements become the empty
string, others are `String`-coerced. -/
def propKeyElem : JsValue → String
  | .vNull => ""
  | .vUndefined => ""
  | v => propKey v

/-- Escape one character for a JSON string literal (common escapes; exotic
control characters are out of every claim's scope). -/
def jsonEscapeChar (c : Char) : String :=
  if c = '"' then "\\\""
  else if c = '\\' then "\\\\"
  else if c = '\n' then "\\n"
  else if c = '\t' then "\\t"
  else if c = '\r' then "\\r"
  else String.mk [c]

/-- Escape a string for a JSON literal. -/
def jsonEscape (s : String) : String := String.join (s.data.map jsonEscapeChar)

mutual
/-- `JSON.stringify(v)`: `none` models the `undefined` result for an
`undefined` argument. -/
def jsonStringify : JsValue → Option String
  | .vUndefined => none
  | .vNull => some "null"
  | .vBool true => some "true"
  | .vBool false => some "false"
  | .vNum n => some (toString n)
  | .vStr s => some ("\"" ++ jsonEscape s ++ "\"")
  | .vArr xs => some ("[" ++ String.intercalate "," (jsonStringifyElems xs) ++ "]")
  | .vObj fs => some ("\x7b" ++ String.intercalate "," (jsonStringifyFields fs) ++ "\x7d")

/-- Array elements of `JSON.stringify`; `undefined` elements render `null`. -/
def jsonStringifyElems : JsArr → List String
  | .nil => []
  | .cons x rest => ((jsonStringify x).getD "null") :: jsonStringifyElems rest

/-- Object fields of `JSON.stringify`; `undefined`-valued fields are dropped. -/
def jsonStringifyFields : JsFields → List String
  | .fnil => []
  | .fcons k v rest =>
    match jsonStringify v with
    | none => jsonStringifyFields rest
    | some s => ("\"" ++ jsonEscape k ++ "\":" ++ s) :: jsonStringifyFields rest
end

deriving instance DecidableEq for Except

/-- `isNonEmptyString(value)` of `codexRequestAdapter.js`, as the boolean the
source uses it for: a string whose trimmed form is non-empty. -/
def isNonEmptyString : JsValue → Bool
  | .vStr s => jsTrim s ≠ ""
  | _ => false

/-! ## `src/utils/codexRequestAdapter.js` -/

/-- `DEFAULT_NON_CODEX_FIELDS_TO_REMOVE` of `codexRequestAdapter.js`. -/
def DEFAULT_NON_CODEX_FIELDS_TO_REMOVE : List JsValue :=
  [.vStr "temperature", .vStr "top_p", .vStr "max_output_tokens", .vStr "user",
   .vStr "text_formatting", .vStr "truncation", .vStr "text", .vStr "service_tier",
   .vStr "prompt_cache_retention", .vStr "safety_identifier"]

/-- `normalizeInstructionsMode(value)`. -/
def normalizeInstructionsMode (value : JsValue) : String :=
  let mode := match value with | .vStr s => jsToLowerStr s | _ => ""
  if mode = "prepend" ∨ mode = "overwrite" ∨ mode = "none" then mode else "overwrite"

/-- `normalizeApplyWhen(value)`. -/
def normalizeApplyWhen (value : JsValue) : String :=
  let when_ := match value with | .vStr s => jsToLowerStr s | _ => ""
  if when_ = "all" then "all" else "non_codex"

/-- The resolved `instructions` slot of the adapter configuration. -/
structure ResolvedInstructions where
  mode : String
  applyWhen : String
  text : JsValue
deriving DecidableEq

/-- The resolved `stripFields` slot of the adapter configuration. -/
structure ResolvedStripFields where
  enabled : Bool
  fields : List JsValue
deriving DecidableEq

/-- The result of `resolveAdapterConfig`. -/
structure ResolvedAdapterConfig where
  enabled : Bool
  instructions : ResolvedInstructions
  stripFields : ResolvedStripFields
deriving DecidableEq

/-- `resolveAdapterConfig(rawConfig, defaultInstructionsText)`. -/
def resolveAdapterConfig (rawConfig defaultInstructionsText : JsValue) :
    ResolvedAdapterConfig :=
  let safe := if truthy rawConfig ∧ typeOf rawConfig = "object" then rawConfig else jsObj []
  let enabled := jsGet safe "enabled" ≠ .vBool false
  let instructionsRaw :=
    let v := jsGet safe "instructions"
    if truthy v ∧ typeOf v = "object" then v else jsObj []
  let stripFieldsRaw :=
    let v := jsGet safe "stripFields"
    if truthy v ∧ typeOf v = "object" then v else jsObj []
  let instructionsMode := normalizeInstructionsMode (jsGet instructionsRaw "mode")
  let instructionsApplyWhen :=
    normalizeApplyWhen (jsOr (jsGet instructionsRaw "applyWhen") (jsGet safe "applyWhen"))
  let instructionsText :=
    if isNonEmptyString (jsGet instructionsRaw "text") then jsGet instructionsRaw "text"
    else defaultInstructionsText
  let stripFieldsEnabled := jsGet stripFieldsRaw "enabled" ≠ .vBool false
  let stripFieldsFields :=
    match jsGet stripFieldsRaw "fields" with
    | .vArr xs =>
      if xs.toList.length > 0 then xs.toList else DEFAULT_NON_CODEX_FIELDS_TO_REMOVE
    | _ => DEFAULT_NON_CODEX_FIELDS_TO_REMOVE
  { enabled := enabled,
    instructions :=
      { mode := instructionsMode, applyWhen := instructionsApplyWhen, text := instructionsText },
    stripFields := { enabled := stripFieldsEnabled, fields := stripFieldsFields } }

/-- The annotation object the adapter records in `changes.instructions`. -/
inductive InstructionsChange where
  /-- `{ mode: 'overwrite' }` -/
  | overwrite
  /-- `{ mode: 'prepend', alreadyPresent: true }` -/
  | prependAlreadyPresent
  /-- `{ mode: 'prepend', alreadyPresent: false }` -/
  | prependNew
  /-- `{ mode: 'prepend', alreadyPresent: false, clientMissing: true }` -/
  | prependClientMissing
  /-- `{ mode: 'none', clientMissing: true, fallback: true }` -/
  | noneFallback
deriving DecidableEq

/-- The adapter's `changes` record. -/
structure AdapterChanges where
  strippedFields : List JsValue
  instructions : Option InstructionsChange
deriving DecidableEq

/-- The adapter's result.  `sameObject` models JavaScript reference
identity: it is `true` exactly on the code paths that return the caller's
own `body` object, and `false` when the result is the `{ ...body }` copy. -/
structure AdapterResult where
  body : JsValue
  sameObject : Bool
  applied : Bool
  changes : AdapterChanges
deriving DecidableEq

/-- Options of `adaptCodexRequestBody`. -/
structure AdapterOptions where
  isCodexCLI : Bool
  adapterConfig : JsValue
  defaultInstructionsText : JsValue

/-- The strip loop of `adaptCodexRequestBody`: for each configured field, if
the current body has it, delete it and record the field; keys are coerced
with the `String()` semantics of bracket access. -/
def stripFieldsLoop : List JsValue → List (String × JsValue) →
    List (String × JsValue) × List JsValue
  | [], fields => (fields, [])
  | f :: rest, fields =>
    let k := propKey f
    if hasOwnField fields k then
      let (fields₂, stripped) := stripFieldsLoop rest (jsDeleteField fields k)
      (fields₂, f :: stripped)
    else stripFieldsLoop rest fields

/-- `adaptCodexRequestBody(body, { isCodexCLI, adapterConfig,
defaultInstructionsText })` of `src/utils/codexRequestAdapter.js` (the
repository copy, whose `mode=='none'` branch backfills blank client
instructions). -/
def adaptCodexRequestBody (body : JsValue) (opts : AdapterOptions) : AdapterResult :=
  if ¬(truthy body ∧ typeOf body = "object") then
    { body := body, sameObject := true, applied := false,
      changes := { strippedFields := [], instructions := none } }
  else
    let settings := resolveAdapterConfig opts.adapterConfig opts.defaultInstructionsText
    if ¬settings.enabled then
      { body := body, sameObject := true, applied := false,
        changes := { strippedFields := [], instructions := none } }
    else
      -- const processedBody = { ...body }
      let fields₀ := objFieldsOf body
      let stripRes :=
        if ¬opts.isCodexCLI ∧ settings.stripFields.enabled then
          stripFieldsLoop settings.stripFields.fields fields₀
        else (fields₀, [])
      let fields₁ := stripRes.1
      let stripped := stripRes.2
      let scopeAllowsInstructions :=
        settings.instructions.applyWhen = "all" ∨ ¬opts.isCodexCLI
      let hasServerInstructions := isNonEmptyString settings.instructions.text
      let clientInstructions :=
        match jsGet body "instructions" with | .vStr s => s | _ => ""
      let hasClientInstructions := jsTrim clientInstructions ≠ ""
      let serverText := match settings.instructions.text with | .vStr s => s | _ => ""
      let instrRes :=
        if scopeAllowsInstructions ∧ hasServerInstructions then
          if settings.instructions.mode = "overwrite" then
            (jsSetField fields₁ "instructions" (.vStr serverText), some .overwrite)
          else if settings.instructions.mode = "prepend" then
            let alreadyPresent :=
              strStartsWith clientInstructions serverText ∨
              strStartsWith (jsTrimStart clientInstructions) serverText
            if hasClientInstructions ∧ alreadyPresent then
              (jsSetField fields₁ "instructions" (jsGet body "instructions"),
               some .prependAlreadyPresent)
            else if hasClientInstructions then
              (jsSetField fields₁ "instructions"
                 (.vStr (serverText ++ "\n\n" ++ clientInstructions)),
               some .prependNew)
            else
              (jsSetField fields₁ "instructions" (.vStr serverText),
               some .prependClientMissing)
          else if settings.instructions.mode = "none" then
            if ¬hasClientInstructions then
              (jsSetField fields₁ "instructions" (.vStr serverText), some .noneFallback)
            else (fields₁, none)
          else (fields₁, none)
        else (fields₁, none)
      { body := jsObj instrRes.1, sameObject := false,
        applied := !stripped.isEmpty || instrRes.2.isSome,
        changes := { strippedFields := stripped, instructions := instrRes.2 } }

/-! ## Request translation (Anthropic → Codex), from the bridge service file -/

/-- The lowercase hex digit of `n < 16` (`Nat.digitChar` renders
`0`-`9` then `a`-`f`, matching `Buffer.toString('hex')`). -/
def hexDigit (n : Nat) : Char := Nat.digitChar n

/-- Is `c` a lowercase hex digit? -/
def isHexChar (c : Char) : Bool :=
  ('0' ≤ c ∧ c ≤ '9') ∨ ('a' ≤ c ∧ c ≤ 'f')

/-- The two hex characters of one byte (`Buffer.toString('hex')`). -/
def byteToHexChars (b : Nat) : List Char :=
  [hexDigit (b % 256 / 16), hexDigit (b % 256 % 16)]

/-- `crypto.randomBytes(count).toString('hex')` for the bytes of the supply
starting at index `start`. -/
def bytesToHex (bytes : Nat → Nat) (start count : Nat) : String :=
  String.mk (((List.range count).map fun i => byteToHexChars (bytes (start + i))).flatten)

/-- `generateCodexCallId()`: `call_` followed by 12 random bytes in hex,
reading bytes `idx .. idx+11` of the supply. -/
def generateCodexCallId (bytes : Nat → Nat) (idx : Nat) : String :=
  "call_" ++ bytesToHex bytes idx 12

/-- `extractInstructionsFromSystem(system)`. -/
def extractInstructionsFromSystem (system : JsValue) : String :=
  if ¬truthy system then ""
  else
    match system with
    | .vStr s => if strStartsWith (jsTrim s) "x-anthropic-billing-header" then "" else s
    | .vArr items =>
      let parts := items.toList.filterMap fun item =>
        if ¬(truthy item ∧ jsGet item "type" = .vStr "text" ∧
             typeOf (jsGet item "text") = "string") then none
        else
          match jsGet item "text" with
          | .vStr t =>
            let trimmed := jsTrim t
            if strStartsWith trimmed "x-anthropic-billing-header" then none
            else if strStartsWith trimmed "<system-reminder>" then none
            else some t
          | _ => none
      String.intercalate "\n\n" parts
    | _ => ""

/-- `normalizeContent(content)`. -/
def normalizeContent (content : JsValue) : List JsValue :=
  if ¬truthy content then []
  else
    match content with
    | .vStr s => [jsObj [("type", .vStr "text"), ("text", .vStr s)]]
    | .vArr xs => xs.toList
    | _ => []

/-- An item of the Codex `input` array produced by the request translator. -/
inductive CodexInputItem where
  /-- `{ role: 'user', content: block.text }` -/
  | userText (content : JsValue)
  /-- `{ type: 'message', role: 'assistant', content: [{type:'output_text', text}] }` -/
  | assistantText (text : JsValue)
  /-- `{ type: 'function_call', call_id, name, arguments }` (`arguments` is
  the string the source computes; `none` models an `undefined` value). -/
  | functionCall (call_id : String) (name : JsValue) (arguments : Option String)
  /-- `{ type: 'function_call_output', call_id, output }` -/
  | functionCallOutput (call_id : JsValue) (output : String)
deriving DecidableEq

/-- `typeof block.input === 'string' ? block.input : JSON.stringify(block.input)`. -/
def jsArguments (inputV : JsValue) : Option String :=
  match inputV with
  | .vStr s => some s
  | v => jsonStringify v

/-- `Map.prototype.get` for the tool-ID map (`JsValue` keys, string values). -/
def mapGet : List (JsValue × String) → JsValue → Option String
  | [], _ => none
  | (k, v) :: rest, key => if k = key then some v else mapGet rest key

/-- `Map.prototype.set` for the tool-ID map. -/
def mapSet : List (JsValue × String) → JsValue → String → List (JsValue × String)
  | [], key, value => [(key, value)]
  | (k, v) :: rest, key, value =>
    if k = key then (key, value) :: rest else (k, v) :: mapSet rest key value

/-- The `tool_result` output text:
`block.content.filter(c => c.type === 'text').map(c => c.text || '').join('\n')`.
Each element's `.type` access throws on a nullish element. -/
def toolResultTexts : List JsValue → Except Unit (List String)
  | [] => .ok []
  | c :: rest => do
    let t ← getProp c "type"
    let more ← toolResultTexts rest
    if t = .vStr "text" then
      .ok (propKeyElem (jsOr (jsGet c "text") (.vStr "")) :: more)
    else
      .ok more

/-- The output text of a `tool_result` block (`block.content` already read). -/
def toolResultOutputText (content : JsValue) : Except Unit String :=
  match content with
  | .vStr s => .ok s
  | .vArr xs => do
    let texts ← toolResultTexts xs.toList
    .ok (String.intercalate "\n" texts)
  | _ => .ok ""

/-- Accumulator of `convertMessagesToCodexInput`: the `input` array, the
tool-ID map, and the index of the next unused random byte. -/
structure MsgsAcc where
  input : List CodexInputItem
  toolIdMap : List (JsValue × String)
  rnd : Nat
deriving DecidableEq

/-- One content block of a `user` turn. -/
def processUserBlock (acc : MsgsAcc) (block : JsValue) : Except Unit MsgsAcc := do
  let t ← getProp block "type"
  if t = .vStr "text" then
    .ok { acc with input := acc.input ++ [.userText (jsGet block "text")] }
  else if t = .vStr "tool_result" then
    let tuid := jsGet block "tool_use_id"
    -- const callId = toolIdMap.get(block.tool_use_id) || block.tool_use_id
    let callIdV :=
      match mapGet acc.toolIdMap tuid with
      | some s => if s = "" then tuid else .vStr s
      | none => tuid
    let outputText ← toolResultOutputText (jsGet block "content")
    .ok { acc with input := acc.input ++ [.functionCallOutput callIdV outputText] }
  else
    .ok acc

/-- One content block of an `assistant` turn. -/
def processAssistantBlock (bytes : Nat → Nat) (acc : MsgsAcc) (block : JsValue) :
    Except Unit MsgsAcc := do
  let t ← getProp block "type"
  if t = .vStr "thinking" then
    .ok acc
  else if t = .vStr "text" then
    .ok { acc with input := acc.input ++ [.assistantText (jsGet block "text")] }
  else if t = .vStr "tool_use" then
    let callId := generateCodexCallId bytes acc.rnd
    .ok { input := acc.input ++
            [.functionCall callId (jsGet block "name") (jsArguments (jsGet block "input"))],
          toolIdMap := mapSet acc.toolIdMap (jsGet block "id") callId,
          rnd := acc.rnd + 12 }
  else
    .ok acc

/-- One turn of the `messages` array. -/
def processMessage (bytes : Nat → Nat) (acc : MsgsAcc) (msg : JsValue) :
    Except Unit MsgsAcc := do
  let role ← getProp msg "role"
  if role = .vStr "user" then
    (normalizeContent (jsGet msg "content")).foldlM processUserBlock acc
  else if role = .vStr "assistant" then
    (normalizeContent (jsGet msg "content")).foldlM (processAssistantBlock bytes) acc
  else
    .ok acc

/-- `convertMessagesToCodexInput(messages)`. -/
def convertMessagesToCodexInput (bytes : Nat → Nat) (messages : List JsValue) :
    Except Unit (List CodexInputItem × List (JsValue × String)) := do
  let acc ← messages.foldlM (processMessage bytes) ⟨[], [], 0⟩
  .ok (acc.input, acc.toolIdMap)

/-- One entry of the Codex `tools` array:
`{ type: 'function', name, description, parameters }`. -/
structure CodexTool where
  name : JsValue
  description : JsValue
  parameters : JsValue
deriving DecidableEq

/-- The element conversion of `convertToolsToCodex`: member access on a
nullish array element throws. -/
def toolsToCodexElems : List JsValue → Except Unit (List CodexTool)
  | [] => .ok []
  | t :: rest => do
    let name ← getProp t "name"
    let converted : CodexTool :=
      { name := name,
        description := jsOr (jsGet t "description") (.vStr ""),
        parameters := jsOr (jsGet t "input_schema") (jsObj []) }
    let more ← toolsToCodexElems rest
    .ok (converted :: more)

/-- `convertToolsToCodex(tools)`: `undefined` (here `none`) unless `tools`
is a non-empty array. -/
def convertToolsToCodex (tools : JsValue) : Except Unit (Option (List CodexTool)) :=
  match tools with
  | .vArr xs =>
    if xs.toList.length = 0 then .ok none
    else do
      let ts ← toolsToCodexElems xs.toList
      .ok (some ts)
  | _ => .ok none

/-- A Codex `tool_choice` value produced by the converter. -/
inductive ToolChoiceResult where
  /-- a plain string value -/
  | tcString (s : String)
  /-- `{ type: 'function', name }` -/
  | tcFunction (name : JsValue)
deriving DecidableEq

/-- `convertToolChoiceToCodex(toolChoice)`; `none` models `undefined`
(the field is then left out of the outbound body). -/
def convertToolChoiceToCodex (toolChoice : JsValue) : Option ToolChoiceResult :=
  if ¬truthy toolChoice then none
  else
    match toolChoice with
    | .vStr s =>
      if s = "auto" then some (.tcString "auto")
      else if s = "any" then some (.tcString "required")
      else if s = "none" then some (.tcString "none")
      else some (.tcString s)
    | v =>
      if typeOf v = "object" then
        if jsGet v "type" = .vStr "auto" then some (.tcString "auto")
        else if jsGet v "type" = .vStr "any" then some (.tcString "required")
        else if jsGet v "type" = .vStr "tool" ∧ truthy (jsGet v "name") then
          some (.tcFunction (jsGet v "name"))
        else none
      else none

/-- `KNOWN_REASONING_EFFORTS`. -/
def KNOWN_REASONING_EFFORTS : List String := ["low", "medium", "high", "xhigh"]

/-- Split a character list at its last `-`:
`some (before, after)`, or `none` when there is no dash. -/
def splitAtLastDash : List Char → Option (List Char × List Char)
  | [] => none
  | c :: rest =>
    match splitAtLastDash rest with
    | some (b, t) => some (c :: b, t)
    | none => if c = '-' then some ([], rest) else none

/-- `parseModelWithReasoning(modelName)`: the `(actualModel, reasoningEffort)`
pair.  A last-dash position `<= 0` (no dash, or a dash as the first
character) leaves the name unchanged. -/
def parseModelWithReasoning (modelName : JsValue) : JsValue × Option String :=
  if ¬truthy modelName ∨ typeOf modelName ≠ "string" then
    (jsOr modelName (.vStr ""), none)
  else
    match modelName with
    | .vStr s =>
      match splitAtLastDash s.data with
      | none => (.vStr s, none)
      | some ([], _) => (.vStr s, none)
      | some (b, t) =>
        let suffix := String.mk (t.map Char.toLower)
        if KNOWN_REASONING_EFFORTS.contains suffix then
          (.vStr (String.mk b), some suffix)
        else (.vStr s, none)
    | _ => (.vStr "", none)

/-- `thinkingBudgetToEffort(thinking)`.  A truthy non-numeric
`budget_tokens` is modelled as failing the `<= 20000` comparison (JavaScript
would coerce; no claim involves a non-numeric budget). -/
def thinkingBudgetToEffort (thinking : JsValue) : Option String :=
  if ¬(truthy thinking ∧ jsGet thinking "type" = .vStr "enabled" ∧
       truthy (jsGet thinking "budget_tokens")) then none
  else
    match jsGet thinking "budget_tokens" with
    | .vNum n => some (if n ≤ 20000 then "medium" else "high")
    | _ => some "high"

/-- `{ effort, summary: 'auto' }`. -/
structure ReasoningField where
  effort : String
  summary : String
deriving DecidableEq

/-- The assembled Codex Responses request body; `Option` fields model the
conditionally assigned ones. -/
structure CodexRequestBody where
  model : JsValue
  input : List CodexInputItem
  instructions : Option String
  max_output_tokens : Option JsValue
  stream : Option JsValue
  tools : Option (List CodexTool)
  tool_choice : Option ToolChoiceResult
  reasoning : Option ReasoningField
deriving DecidableEq

/-- `for (const x of v)`: the iterated elements; arrays iterate their
elements, strings their characters, any other truthy value throws. -/
def jsIterate (v : JsValue) : Except Unit (List JsValue) :=
  match v with
  | .vArr xs => .ok xs.toList
  | .vStr s => .ok (s.data.map fun c => .vStr (String.mk [c]))
  | v => if truthy v then .error () else .error ()

/-- `convertAnthropicRequestToCodex(body, baseModel)`: the Codex body, the
tool-ID map and the actual model name. -/
def convertAnthropicRequestToCodex (bytes : Nat → Nat) (body baseModel : JsValue) :
    Except Unit (CodexRequestBody × List (JsValue × String) × JsValue) := do
  let parsed := parseModelWithReasoning baseModel
  let actualModel := parsed.1
  let thinkingV ← getProp body "thinking"
  let fallbackEffort := thinkingBudgetToEffort thinkingV
  let effort := parsed.2.getD (fallbackEffort.getD "medium")
  let systemV ← getProp body "system"
  let instructions := extractInstructionsFromSystem systemV
  let messagesV ← getProp body "messages"
  let messages ← jsIterate (jsOr messagesV (jsArr []))
  let converted ← convertMessagesToCodexInput bytes messages
  let toolsV ← getProp body "tools"
  let tools ← convertToolsToCodex toolsV
  let toolChoiceV ← getProp body "tool_choice"
  let toolChoice := convertToolChoiceToCodex toolChoiceV
  let maxTokensV ← getProp body "max_tokens"
  let streamV ← getProp body "stream"
  .ok
    ({ model := actualModel,
       input := converted.1,
       instructions := if instructions ≠ "" then some instructions else none,
       max_output_tokens := if truthy maxTokensV then some maxTokensV else none,
       stream := if streamV ≠ .vUndefined then some streamV else none,
       tools := tools,
       tool_choice := toolChoice,
       reasoning := if effort ≠ "" then some { effort := effort, summary := "auto" } else none },
     converted.2, actualModel)

/-! ## Response translation (Codex → Anthropic), non-streaming -/

/-- `CODEX_RESPONSE_MODEL_ALIAS`. -/
def CODEX_RESPONSE_MODEL_ALIAS : String := "claude-sonnet-4-20250514"

/-- A `response.completed` payload, typed at the level every claim uses:
`status`, `incomplete_details` and `usage` are raw values; `output` is an
array (an absent `output` is the empty list, matching `output || []`; a
truthy non-array `output` throws in the streaming and the non-streaming
path alike and is outside every claim). -/
structure CodexResponsePayload where
  status : JsValue
  incomplete_details : JsValue
  output : List JsValue
  usage : JsValue
deriving DecidableEq

/-- `x || 0` for a usage counter, on numeric-or-absent fields (a truthy
non-numeric counter would be coerced later by JavaScript arithmetic; no
claim involves one). -/
def jsNumOrZero (v : JsValue) : Int :=
  match v with
  | .vNum n => n
  | _ => 0

/-- A content block of the synthesized Anthropic message.  `argumentsRaw`
keeps `item.arguments` as received: the `JSON.parse` / `{ raw }` fallback
is abstracted away because no claim inspects a `tool_use` input. -/
inductive AnthropicBlock where
  /-- `{ type: 'thinking', thinking }` -/
  | thinkingBlock (thinking : String)
  /-- `{ type: 'text', text }` -/
  | textBlock (text : JsValue)
  /-- `{ type: 'tool_use', id, name, input }` -/
  | toolUseBlock (id : JsValue) (name : JsValue) (argumentsRaw : JsValue)
deriving DecidableEq

/-- Is a block a `tool_use` block? -/
def isToolUseBlock : AnthropicBlock → Bool
  | .toolUseBlock _ _ _ => true
  | _ => false

/-- `Map.prototype.get` for the reverse tool-ID map (string keys). -/
def mapGetStr : List (String × JsValue) → JsValue → Option JsValue
  | [], _ => none
  | (k, v) :: rest, key => if .vStr k = key then some v else mapGetStr rest key

/-- `Map.prototype.set` for the reverse tool-ID map. -/
def mapSetStr : List (String × JsValue) → String → JsValue → List (String × JsValue)
  | [], key, value => [(key, value)]
  | (k, v) :: rest, key, value =>
    if k = key then (key, value) :: rest else (k, v) :: mapSetStr rest key value

/-- The reverse map built at the top of `convertCodexResponseToAnthropic`:
`for ([anthropicId, codexId] of toolIdMap) reverse.set(codexId, anthropicId)`. -/
def reverseToolIdMapOf (toolIdMap : List (JsValue × String)) : List (String × JsValue) :=
  toolIdMap.foldl (fun acc p => mapSetStr acc p.2 p.1) []

/-- `.map` on the value of `item.summary || []`: a truthy non-array
receiver has no `.map` and throws. -/
def jsMapReceiver : JsValue → Except Unit (List JsValue)
  | .vArr xs => .ok xs.toList
  | _ => .error ()

/-- `summaryParts.map(p => p.text || '')`, coerced as the later
`join('')` does; `.text` on a nullish part throws. -/
def summaryTexts : List JsValue → Except Unit (List String)
  | [] => .ok []
  | p :: rest => do
    let t ← getProp p "text"
    let more ← summaryTexts rest
    .ok (propKeyElem (jsOr t (.vStr "")) :: more)

/-- The `output_text` parts of a `message` output item. -/
def messagePartBlocks : List JsValue → Except Unit (List AnthropicBlock)
  | [] => .ok []
  | part :: rest => do
    let t ← getProp part "type"
    let more ← messagePartBlocks rest
    if t = .vStr "output_text" then
      .ok (.textBlock (jsOr (jsGet part "text") (.vStr "")) :: more)
    else
      .ok more

/-- The content loop of `convertCodexResponseToAnthropic`: walk the output
items, threading the random-byte index used to mint `toolu_` IDs. -/
def itemsToContent (bytes : Nat → Nat) (rev : List (String × JsValue)) :
    List JsValue → Nat → Except Unit (List AnthropicBlock × Nat)
  | [], rnd => .ok ([], rnd)
  | item :: rest, rnd => do
    let t ← getProp item "type"
    if t = .vStr "reasoning" then
      let parts ← jsMapReceiver (jsOr (jsGet item "summary") (jsArr []))
      let texts ← summaryTexts parts
      let thinkingText := String.join texts
      let res ← itemsToContent bytes rev rest rnd
      .ok ((if thinkingText ≠ "" then [.thinkingBlock thinkingText] else []) ++ res.1, res.2)
    else if t = .vStr "message" then
      let elems ← jsIterate (jsOr (jsGet item "content") (jsArr []))
      let blocks ← messagePartBlocks elems
      let res ← itemsToContent bytes rev rest rnd
      .ok (blocks ++ res.1, res.2)
    else if t = .vStr "function_call" then
      -- reverseToolIdMap.get(item.call_id) || `toolu_${crypto.randomBytes(12)...}`
      let hit := (mapGetStr rev (jsGet item "call_id")).getD .vUndefined
      let minted :=
        if truthy hit then (hit, rnd)
        else (.vStr ("toolu_" ++ bytesToHex bytes rnd 12), rnd + 12)
      let res ← itemsToContent bytes rev rest minted.2
      .ok (.toolUseBlock minted.1 (jsGet item "name") (jsGet item "arguments") :: res.1, res.2)
    else
      itemsToContent bytes rev rest rnd

/-- The Anthropic usage object of the synthesized message. -/
structure AnthropicUsage where
  input_tokens : Int
  output_tokens : Int
  cache_creation_input_tokens : Int
  cache_read_input_tokens : Int
deriving DecidableEq

/-- The synthesized non-streaming Anthropic message (`type: 'message'`,
`role: 'assistant'` and `stop_sequence: null` are constants and left
implicit). -/
structure AnthropicMessage where
  id : String
  model : String
  content : List AnthropicBlock
  stop_reason : String
  usage : AnthropicUsage
deriving DecidableEq

/-- `convertCodexResponseToAnthropic(codexResponse, baseModel, toolIdMap)`. -/
def convertCodexResponseToAnthropic (bytes : Nat → Nat)
    (codexResponse : CodexResponsePayload) (baseModel : JsValue)
    (toolIdMap : List (JsValue × String)) : Except Unit AnthropicMessage := do
  let rev := reverseToolIdMapOf toolIdMap
  let cres ← itemsToContent bytes rev codexResponse.output 0
  let content := cres.1
  -- Determine stop_reason
  let baseStop :=
    if codexResponse.status = .vStr "incomplete" ∧
       optChain codexResponse.incomplete_details "reason" = .vStr "max_output_tokens" then
      "max_tokens"
    else "end_turn"
  let stopReason := if content.any isToolUseBlock then "tool_use" else baseStop
  -- Extract usage
  let codexUsage := jsOr codexResponse.usage (jsObj [])
  let inputTokens := jsNumOrZero (jsGet codexUsage "input_tokens")
  let outputTokens := jsNumOrZero (jsGet codexUsage "output_tokens")
  let inputTokensDetails := jsOr (jsGet codexUsage "input_tokens_details") (jsObj [])
  let cacheReadInputTokens := jsNumOrZero (jsGet inputTokensDetails "cached_tokens")
  .ok
    { id := "msg_" ++ bytesToHex bytes cres.2 16,
      model := CODEX_RESPONSE_MODEL_ALIAS,
      content := content,
      stop_reason := stopReason,
      usage :=
        { input_tokens := inputTokens - cacheReadInputTokens,
          output_tokens := outputTokens,
          cache_creation_input_tokens := 0,
          cache_read_input_tokens := cacheReadInputTokens } }

/-! ## Streaming converter (Codex SSE → Anthropic SSE) -/

/-- The `content_block` payload of a `content_block_start` event. -/
inductive ContentBlockPayload where
  /-- `{ type: 'tool_use', id, name, input: {} }` -/
  | toolUseStart (id : JsValue) (name : JsValue)
  /-- `{ type: 'thinking', thinking: '' }` -/
  | thinkingStart
  /-- `{ type: 'text', text: '' }` -/
  | textStart
deriving DecidableEq

/-- The `delta` payload of a `content_block_delta` event. -/
inductive DeltaPayload where
  /-- `{ type: 'thinking_delta', thinking }` -/
  | thinkingDelta (v : JsValue)
  /-- `{ type: 'text_delta', text }` -/
  | textDelta (v : JsValue)
  /-- `{ type: 'input_json_delta', partial_json }` -/
  | inputJsonDelta (v : JsValue)
deriving DecidableEq

/-- An Anthropic SSE event written to the client
(`writeAnthropicSseEvent(res, event, data)`). -/
inductive AnthropicStreamEvent where
  | messageStart (id : String)
  | contentBlockStart (index : Nat) (block : ContentBlockPayload)
  | contentBlockDelta (index : Nat) (delta : DeltaPayload)
  | contentBlockStop (index : Nat)
  | messageDelta (stop_reason : String) (usage : AnthropicUsage)
  | messageStop
deriving DecidableEq

/-- The state of `CodexToAnthropicStreamConverter`, plus the index of the
next unused byte of the random supply. -/
structure ConvState where
  toolIdMap : List (JsValue × String)
  currentBlockIndex : Nat
  messageId : String
  inputTokens : Int
  outputTokens : Int
  cacheReadInputTokens : Int
  messageStartSent : Bool
  currentFunctionCallId : JsValue
  currentFunctionCallName : JsValue
  rnd : Nat
deriving DecidableEq

/-- The converter's constructor: mints `msg_` + 16 random bytes in hex and
starts with everything else zeroed. -/
def initConvState (bytes : Nat → Nat) (toolIdMap : List (JsValue × String)) : ConvState :=
  { toolIdMap := toolIdMap,
    currentBlockIndex := 0,
    messageId := "msg_" ++ bytesToHex bytes 0 16,
    inputTokens := 0,
    outputTokens := 0,
    cacheReadInputTokens := 0,
    messageStartSent := false,
    currentFunctionCallId := .vNull,
    currentFunctionCallName := .vNull,
    rnd := 16 }

/-- A Codex SSE event fed to `processEvent`, one constructor per handled
`event.type`; `otherEvent` covers unknown types and typeless events (both
return without emitting). -/
inductive CodexStreamEvent where
  | responseCreated
  | outputItemAdded (item : JsValue)
  | reasoningSummaryPartAdded
  | reasoningSummaryTextDelta (delta : JsValue)
  | reasoningSummaryPartDone
  | contentPartAdded (part : JsValue)
  | outputTextDelta (delta : JsValue)
  | contentPartDone
  | functionCallArgumentsDelta (delta : JsValue)
  | outputItemDone (item : JsValue)
  | responseCompleted (response : CodexResponsePayload)
  | otherEvent
deriving DecidableEq

/-- `_ensureMessageStart()`. -/
def ensureMessageStart (s : ConvState) : ConvState × List AnthropicStreamEvent :=
  if s.messageStartSent then (s, [])
  else ({ s with messageStartSent := true }, [.messageStart s.messageId])

/-- `_getAnthropicToolId(codexCallId)`: linear scan of the forward map;
`null` when absent, as in the source. -/
def getAnthropicToolId (toolIdMap : List (JsValue × String)) (codexCallId : JsValue) : JsValue :=
  match toolIdMap with
  | [] => .vNull
  | (anthropicId, mappedCodexId) :: rest =>
    if .vStr mappedCodexId = codexCallId then anthropicId
    else getAnthropicToolId rest codexCallId

/-- `_handleOutputItemAdded(event)`. -/
def handleOutputItemAdded (bytes : Nat → Nat) (s : ConvState) (itemV : JsValue) :
    ConvState × List AnthropicStreamEvent :=
  let ms := ensureMessageStart s
  let s₁ := ms.1
  let es := ms.2
  let item := jsOr itemV (jsObj [])
  if jsGet item "type" = .vStr "function_call" then
    let s₂ := { s₁ with
      currentFunctionCallId := jsGet item "call_id",
      currentFunctionCallName := jsGet item "name" }
    -- this._getAnthropicToolId(item.call_id) || `toolu_${crypto.randomBytes(12)...}`
    let found := getAnthropicToolId s₂.toolIdMap (jsGet item "call_id")
    let minted :=
      if truthy found then (found, s₂)
      else (.vStr ("toolu_" ++ bytesToHex bytes s₂.rnd 12), { s₂ with rnd := s₂.rnd + 12 })
    (minted.2, es ++ [.contentBlockStart minted.2.currentBlockIndex
                  (.toolUseStart minted.1 (jsOr (jsGet item "name") (.vStr "")))])
  else
    (s₁, es)

/-- `_handleReasoningSummaryPartAdded()`. -/
def handleReasoningSummaryPartAdded (s : ConvState) : ConvState × List AnthropicStreamEvent :=
  let ms := ensureMessageStart s
  (ms.1, ms.2 ++ [.contentBlockStart ms.1.currentBlockIndex .thinkingStart])

/-- `_handleContentPartAdded(event)`. -/
def handleContentPartAdded (s : ConvState) (partV : JsValue) :
    ConvState × List AnthropicStreamEvent :=
  let ms := ensureMessageStart s
  let part := jsOr partV (jsObj [])
  if jsGet part "type" = .vStr "output_text" then
    (ms.1, ms.2 ++ [.contentBlockStart ms.1.currentBlockIndex .textStart])
  else
    (ms.1, ms.2)

/-- `_handleBlockStop()`. -/
def handleBlockStop (s : ConvState) : ConvState × List AnthropicStreamEvent :=
  ({ s with currentBlockIndex := s.currentBlockIndex + 1 },
   [.contentBlockStop s.currentBlockIndex])

/-- `_handleOutputItemDone(event)`. -/
def handleOutputItemDone (s : ConvState) (itemV : JsValue) :
    ConvState × List AnthropicStreamEvent :=
  let item := jsOr itemV (jsObj [])
  if jsGet item "type" = .vStr "function_call" then
    let bs := handleBlockStop s
    ({ bs.1 with currentFunctionCallId := .vNull, currentFunctionCallName := .vNull }, bs.2)
  else
    (s, [])

/-- The stop-reason derivation inside `_handleResponseCompleted`:
`(response.output || []).some(item => item.type === 'function_call')`
short-circuits at the first `function_call`, and `.type` on a nullish item
throws. -/
def jsSomeIsFunctionCall : List JsValue → Except Unit Bool
  | [] => .ok false
  | item :: rest => do
    let t ← getProp item "type"
    if t = .vStr "function_call" then .ok true else jsSomeIsFunctionCall rest

/-- The stop reason the streaming converter derives from a
`response.completed` payload. -/
def streamStopReason (response : CodexResponsePayload) : Except Unit String := do
  let base :=
    if response.status = .vStr "incomplete" ∧
       optChain response.incomplete_details "reason" = .vStr "max_output_tokens" then
      "max_tokens"
    else "end_turn"
  let hasToolUse ← jsSomeIsFunctionCall response.output
  .ok (if hasToolUse then "tool_use" else base)

/-- `_handleResponseCompleted(event)`: the usage fields are stored first;
when the stop-reason derivation throws, nothing has been written yet, so
the step emits no events (the exception is caught by the chunk loop). -/
def handleResponseCompleted (s : ConvState) (response : CodexResponsePayload) :
    ConvState × List AnthropicStreamEvent :=
  let usage := jsOr response.usage (jsObj [])
  let inputTokensDetails := jsOr (jsGet usage "input_tokens_details") (jsObj [])
  let s₁ := { s with
    inputTokens := jsNumOrZero (jsGet usage "input_tokens"),
    outputTokens := jsNumOrZero (jsGet usage "output_tokens"),
    cacheReadInputTokens := jsNumOrZero (jsGet inputTokensDetails "cached_tokens") }
  match streamStopReason response with
  | .error _ => (s₁, [])
  | .ok stopReason =>
    (s₁,
     [.messageDelta stopReason
        { input_tokens := s₁.inputTokens - s₁.cacheReadInputTokens,
          output_tokens := s₁.outputTokens,
          cache_read_input_tokens := s₁.cacheReadInputTokens,
          cache_creation_input_tokens := 0 },
      .messageStop])

/-- `processEvent(event)`: the switch of `CodexToAnthropicStreamConverter`. -/
def processEvent (bytes : Nat → Nat) (s : ConvState) (e : CodexStreamEvent) :
    ConvState × List AnthropicStreamEvent :=
  match e with
  | .responseCreated => ensureMessageStart s
  | .outputItemAdded item => handleOutputItemAdded bytes s item
  | .reasoningSummaryPartAdded => handleReasoningSummaryPartAdded s
  | .reasoningSummaryTextDelta delta =>
    if truthy delta then
      (s, [.contentBlockDelta s.currentBlockIndex (.thinkingDelta delta)])
    else (s, [])
  | .reasoningSummaryPartDone => handleBlockStop s
  | .contentPartAdded part => handleContentPartAdded s part
  | .outputTextDelta delta =>
    if truthy delta then
      (s, [.contentBlockDelta s.currentBlockIndex (.textDelta delta)])
    else (s, [])
  | .contentPartDone => handleBlockStop s
  | .functionCallArgumentsDelta delta =>
    if truthy delta then
      (s, [.contentBlockDelta s.currentBlockIndex (.inputJsonDelta delta)])
    else (s, [])
  | .outputItemDone item => handleOutputItemDone s item
  | .responseCompleted response => handleResponseCompleted s response
  | .otherEvent => (s, [])

/-- Feed a whole sequence of upstream events, concatenating the emitted
Anthropic events in order. -/
def processEvents (bytes : Nat → Nat) (s : ConvState) :
    List CodexStreamEvent → ConvState × List AnthropicStreamEvent
  | [] => (s, [])
  | e :: rest =>
    let step := processEvent bytes s e
    let done := processEvents bytes step.1 rest
    (done.1, step.2 ++ done.2)

/-- `getUsage()` of the converter: the tallies handed to the usage sink at
stream end. -/
structure SinkUsage where
  inputTokens : Int
  outputTokens : Int
  cacheReadInputTokens : Int
deriving DecidableEq

/-- `getUsage()`. -/
def getUsage (s : ConvState) : SinkUsage :=
  { inputTokens := s.inputTokens - s.cacheReadInputTokens,
    outputTokens := s.outputTokens,
    cacheReadInputTokens := s.cacheReadInputTokens }

/-! ## Helper lemmas and claim-side definitions -/

/-- A constant byte supply for concrete evaluations. -/
def constBytes : Nat → Nat := fun _ => 0

/-- The `tool_choice` mapping exactly as claim C3 states it: the listed
table, and every other value omitted.  (Written from the claim's words, to
be compared with `convertToolChoiceToCodex`.) -/
def toolChoiceClaimedTable (toolChoice : JsValue) : Option ToolChoiceResult :=
  if toolChoice = .vStr "auto" then some (.tcString "auto")
  else if toolChoice = .vStr "none" then some (.tcString "none")
  else if toolChoice = .vStr "any" then some (.tcString "required")
  else if truthy toolChoice ∧ typeOf toolChoice = "object" then
    if jsGet toolChoice "type" = .vStr "auto" then some (.tcString "auto")
    else if jsGet toolChoice "type" = .vStr "any" then some (.tcString "required")
    else if jsGet toolChoice "type" = .vStr "tool" ∧ truthy (jsGet toolChoice "name") then
      some (.tcFunction (jsGet toolChoice "name"))
    else none
  else none

/-- The amended `tool_choice` mapping: as the claim's table, except that an
unknown non-empty string passes through unchanged instead of being
omitted.  (Written from the amended claim's words.) -/
def toolChoiceAmendedTable (toolChoice : JsValue) : Option ToolChoiceResult :=
  match toolChoice with
  | .vStr s =>
    if s = "" then none
    else if s = "auto" then some (.tcString "auto")
    else if s = "any" then some (.tcString "required")
    else if s = "none" then some (.tcString "none")
    else some (.tcString s)
  | v =>
    if truthy v ∧ typeOf v = "object" then
      if jsGet v "type" = .vStr "auto" then some (.tcString "auto")
      else if jsGet v "type" = .vStr "any" then some (.tcString "required")
      else if jsGet v "type" = .vStr "tool" ∧ truthy (jsGet v "name") then
        some (.tcFunction (jsGet v "name"))
      else none
    else none

/-- C3, amended: `convertToolChoiceToCodex` realizes the claimed table
except on unknown non-empty strings, which pass through unchanged (they are
not omitted); all other unmatched values are omitted. -/
theorem claim3_tool_choice_mapping (tc : JsValue) :
    convertToolChoiceToCodex tc = toolChoiceAmendedTable tc := by
  cases tc with
  | vStr s =>
    by_cases h0 : s = ""
    · subst h0; rfl
    · simp only [convertToolChoiceToCodex, toolChoiceAmendedTable, truthy, h0]
      by_cases h1 : s = "auto"
      · subst h1; rfl
      · by_cases h2 : s = "any"
        · subst h2; rfl
        · by_cases h3 : s = "none"
          · subst h3; rfl
          · simp [h0, h1, h2, h3]
  | vUndefined => rfl
  | vNull => rfl
  | vBool b => cases b <;> rfl
  | vNum n =>
    by_cases h : n = 0
    · subst h; rfl
    · simp [convertToolChoiceToCodex, toolChoiceAmendedTable, truthy, typeOf, h]
  | vArr xs => rfl
  | vObj fs => rfl

/-- C3, counterexample to the claim as stated: the unknown string
`"whatever"` is not omitted — the converter passes it through, and the
assembled Responses body then carries `tool_choice: "whatever"`. -/
theorem claim3_counterexample :
    convertToolChoiceToCodex (.vStr "whatever") = some (.tcString "whatever") ∧
    toolChoiceClaimedTable (.vStr "whatever") = none ∧
    (convertAnthropicRequestToCodex constBytes
        (jsObj [("tool_choice", .vStr "whatever")]) (.vStr "gpt-5")).map
      (fun r => r.1.tool_choice) = .ok (some (.tcString "whatever")) := by
  refine ⟨rfl, rfl, by decide⟩

/-- `splitAtLastDash` really splits at a dash: the input is
`before ++ '-' :: after`. -/
theorem splitAtLastDash_eq (cs b t : List Char) (h : splitAtLastDash cs = some (b, t)) :
    cs = b ++ '-' :: t := by
  induction cs generalizing b t with
  | nil => simp [splitAtLastDash] at h
  | cons c rest ih =>
    simp only [splitAtLastDash] at h
    cases hr : splitAtLastDash rest with
    | some p =>
      obtain ⟨p₁, p₂⟩ := p
      rw [hr] at h
      simp only [Option.some.injEq, Prod.mk.injEq] at h
      obtain ⟨hb, ht⟩ := h
      rw [← hb, ← ht]
      simp [ih p₁ p₂ hr]
    | none =>
      rw [hr] at h
      by_cases hc : c = '-'
      · subst hc
        simp only [if_pos rfl, Option.some.injEq, Prod.mk.injEq] at h
        simp_all
      · simp [hc] at h

/-- C5, amended: when the parser finds an effort, the original model string
is `actualModel ++ "-" ++ suffix` where the returned effort is the
lowercased suffix; reattaching the effort with `-` therefore reconstructs
the original exactly when the suffix was already lowercase (the parser
lowercases the suffix before returning it, so an uppercase suffix such as
`-LOW` is not reconstructed verbatim). -/
theorem claim5_model_parser_round_trip (s : String) (a : JsValue) (e : String)
    (h : parseModelWithReasoning (.vStr s) = (a, some e)) :
    ∃ pre t, a = .vStr pre ∧ s.data = pre.data ++ '-' :: t ∧
      e.data = t.map Char.toLower ∧
      (t.map Char.toLower = t → pre ++ "-" ++ e = s) := by
  by_cases h0 : s = ""
  · subst h0
    simp [parseModelWithReasoning, truthy, typeOf, jsOr] at h
  · simp only [parseModelWithReasoning, truthy, typeOf] at h
    rw [if_neg (by simp [h0])] at h
    cases hs : splitAtLastDash s.data with
    | none => rw [hs] at h; simp at h
    | some p =>
      obtain ⟨b, t⟩ := p
      rw [hs] at h
      cases b with
      | nil => simp at h
      | cons c bs =>
        by_cases hk :
            KNOWN_REASONING_EFFORTS.contains (String.mk (t.map Char.toLower)) = true
        · simp only [hk, if_true, Prod.mk.injEq, Option.some.injEq] at h
          obtain ⟨ha, he⟩ := h
          refine ⟨String.mk (c :: bs), t, ha.symm, ?_, ?_, ?_⟩
          · simpa using splitAtLastDash_eq s.data (c :: bs) t hs
          · rw [← he]
          · intro hlow
            subst he
            apply String.ext
            simp only [String.data_append]
            rw [hlow]
            have hd : s.data = (c :: bs) ++ '-' :: t :=
              splitAtLastDash_eq s.data (c :: bs) t hs
            rw [hd]
            simp
        · have hk2 : ¬(String.mk (t.map Char.toLower) ∈ KNOWN_REASONING_EFFORTS) := by
            simpa using hk
          simp [hk2] at h

/-- C5, counterexample to the claim as stated: the model name `"m-LOW"`
parses to actual model `"m"` with effort `"low"` (the suffix is
lowercased), and `"m" ++ "-" ++ "low"` is `"m-low"`, not the original
`"m-LOW"`. -/
theorem claim5_counterexample :
    parseModelWithReasoning (.vStr "m-LOW") = (.vStr "m", some "low") ∧
    ¬("m" ++ "-" ++ "low" = "m-LOW") := by
  refine ⟨by decide, by decide⟩

/-- C5, witness: at `"m-low"` the hypotheses hold and the reconstruction
succeeds. -/
theorem claim5_witness :
    ∃ pre t, (JsValue.vStr "m") = .vStr pre ∧ ("m-low").data = pre.data ++ '-' :: t ∧
      ("low").data = t.map Char.toLower ∧
      (t.map Char.toLower = t → pre ++ "-" ++ "low" = "m-low") :=
  claim5_model_parser_round_trip "m-low" (.vStr "m") "low" (by decide)

/-- The `applied` flag in Boolean form. -/
theorem applied_flag_iff (l : List JsValue) (o : Option InstructionsChange) :
    (!l.isEmpty || o.isSome) = true ↔ (l ≠ [] ∨ o ≠ none) := by
  cases l <;> cases o <;> simp

/-- C8: the adapter is free of mutation, modelled through object identity:
(1) whenever the code path returns the caller's own body object
(`sameObject = true`), that object's value is unchanged — the adapter never
writes through the alias; (2) whenever the result value differs from the
input in any field, the result is the freshly spread copy
(`sameObject = false`, i.e. `result.body !== body`); (3) `applied` is true
exactly when a field was stripped or the instructions annotation is
non-null. -/
theorem claim8_adapter_frame (body : JsValue) (opts : AdapterOptions) :
    ((adaptCodexRequestBody body opts).sameObject = true →
      (adaptCodexRequestBody body opts).body = body) ∧
    ((adaptCodexRequestBody body opts).body ≠ body →
      (adaptCodexRequestBody body opts).sameObject = false) ∧
    ((adaptCodexRequestBody body opts).applied = true ↔
      ((adaptCodexRequestBody body opts).changes.strippedFields ≠ [] ∨
       (adaptCodexRequestBody body opts).changes.instructions ≠ none)) := by
  unfold adaptCodexRequestBody
  by_cases h1 : ¬(truthy body = true ∧ typeOf body = "object")
  · rw [if_pos h1]
    simp
  · rw [if_neg h1]
    by_cases hen :
        (resolveAdapterConfig opts.adapterConfig opts.defaultInstructionsText).enabled = true
    · simp [hen, Option.isSome_iff_ne_none]
    · simp [hen, Option.isSome_iff_ne_none]

/-- `bind` of `Except` on a success, for rewriting monadic code. -/
theorem Except_bind_ok {ε α β : Type} (a : α) (f : α → Except ε β) :
    (Except.ok a >>= f) = f a := rfl

/-- `bind` of `Except` on an error. -/
theorem Except_bind_error {ε α β : Type} (e : ε) (f : α → Except ε β) :
    ((Except.error e : Except ε α) >>= f) = .error e := rfl

/-- The upstream `input_tokens` as both usage extractors read it
(`(response.usage || {}).input_tokens || 0`). -/
def codexUsageInput (response : CodexResponsePayload) : Int :=
  jsNumOrZero (jsGet (jsOr response.usage (jsObj [])) "input_tokens")

/-- The upstream `output_tokens`. -/
def codexUsageOutput (response : CodexResponsePayload) : Int :=
  jsNumOrZero (jsGet (jsOr response.usage (jsObj [])) "output_tokens")

/-- The upstream `input_tokens_details.cached_tokens`. -/
def codexUsageCached (response : CodexResponsePayload) : Int :=
  jsNumOrZero
    (jsGet (jsOr (jsGet (jsOr response.usage (jsObj [])) "input_tokens_details") (jsObj []))
      "cached_tokens")

/-- C2, amended: from every `response.completed` payload, both paths report
`input_tokens = upstream input − cached` (which may be negative when
`cached > input`; it is non-negative whenever `cached ≤ input`),
`output_tokens` verbatim, `cache_read_input_tokens = cached` and
`cache_creation_input_tokens = 0`: (1) the converter's sink usage,
(2) the emitted `message_delta` (whenever the handler reaches the write),
(3) the non-streaming message (whenever its translation succeeds). -/
theorem claim2_usage_accounting :
    (∀ (s : ConvState) (resp : CodexResponsePayload),
      getUsage (handleResponseCompleted s resp).1 =
        { inputTokens := codexUsageInput resp - codexUsageCached resp,
          outputTokens := codexUsageOutput resp,
          cacheReadInputTokens := codexUsageCached resp }) ∧
    (∀ (s : ConvState) (resp : CodexResponsePayload) (sr : String),
      streamStopReason resp = .ok sr →
      (handleResponseCompleted s resp).2 =
        [.messageDelta sr
          { input_tokens := codexUsageInput resp - codexUsageCached resp,
            output_tokens := codexUsageOutput resp,
            cache_creation_input_tokens := 0,
            cache_read_input_tokens := codexUsageCached resp },
         .messageStop]) ∧
    (∀ (bytes : Nat → Nat) (resp : CodexResponsePayload) (bm : JsValue)
       (tim : List (JsValue × String)) (res : AnthropicMessage),
      convertCodexResponseToAnthropic bytes resp bm tim = .ok res →
      res.usage =
        { input_tokens := codexUsageInput resp - codexUsageCached resp,
          output_tokens := codexUsageOutput resp,
          cache_creation_input_tokens := 0,
          cache_read_input_tokens := codexUsageCached resp }) ∧
    (∀ resp : CodexResponsePayload,
      codexUsageCached resp ≤ codexUsageInput resp →
      0 ≤ codexUsageInput resp - codexUsageCached resp) := by
  refine ⟨?_, ?_, ?_, ?_⟩
  · intro s resp
    unfold handleResponseCompleted getUsage codexUsageInput codexUsageOutput codexUsageCached
    cases hsr : streamStopReason resp <;> rfl
  · intro s resp sr hsr
    unfold handleResponseCompleted
    rw [hsr]
    unfold codexUsageInput codexUsageOutput codexUsageCached
    rfl
  · intro bytes resp bm tim res h
    simp only [convertCodexResponseToAnthropic] at h
    cases hc : itemsToContent bytes (reverseToolIdMapOf tim) resp.output 0 with
    | error e => rw [hc, Except_bind_error] at h; exact absurd h (by simp)
    | ok cres =>
      rw [hc, Except_bind_ok] at h
      simp only [Except.ok.injEq] at h
      rw [← h]
      rfl
  · intro resp h
    omega

/-- A `response.completed` payload whose usage reports one cached token but
no input tokens. -/
def cachedOnlyUsagePayload : CodexResponsePayload :=
  { status := .vUndefined, incomplete_details := .vUndefined, output := [],
    usage := jsObj [("input_tokens_details", jsObj [("cached_tokens", .vNum 1)])] }

/-- C2, counterexample to the claim as stated: with upstream
`input_tokens` absent (0) and `cached_tokens = 1`, the emitted
`message_delta` carries `input_tokens = -1`, which is negative — the
"non-negative" part of the claim fails (the code never clamps). -/
theorem claim2_counterexample :
    (processEvent constBytes (initConvState constBytes [])
        (.responseCompleted cachedOnlyUsagePayload)).2 =
      [.messageDelta "end_turn"
        { input_tokens := -1, output_tokens := 0,
          cache_creation_input_tokens := 0, cache_read_input_tokens := 1 },
       .messageStop] ∧
    ((-1 : Int) < 0) := by
  refine ⟨by decide, by decide⟩

/-- The amended ordering checker: scanning the emitted trace left to right,
`message_start` may appear only while not yet seen (hence at most once) and
`content_block_start` only after it. -/
def msDiscipline : Bool → List AnthropicStreamEvent → Bool
  | _, [] => true
  | seen, .messageStart _ :: rest => !seen && msDiscipline true rest
  | seen, .contentBlockStart _ _ :: rest => seen && msDiscipline seen rest
  | seen, _ :: rest => msDiscipline seen rest

/-- The checker for the claim as stated: `message_start` must additionally
precede every `content_block_delta` and `content_block_stop`. -/
def msDisciplineClaimed : Bool → List AnthropicStreamEvent → Bool
  | _, [] => true
  | seen, .messageStart _ :: rest => !seen && msDisciplineClaimed true rest
  | seen, .contentBlockStart _ _ :: rest => seen && msDisciplineClaimed seen rest
  | seen, .contentBlockDelta _ _ :: rest => seen && msDisciplineClaimed seen rest
  | seen, .contentBlockStop _ :: rest => seen && msDisciplineClaimed seen rest
  | seen, _ :: rest => msDisciplineClaimed seen rest

/-- Whether a `message_start` has been seen after scanning a trace. -/
def msSeenAfter : Bool → List AnthropicStreamEvent → Bool
  | seen, [] => seen
  | _, .messageStart _ :: rest => msSeenAfter true rest
  | seen, _ :: rest => msSeenAfter seen rest

/-- The number of `message_start` events in a trace. -/
def msCount (l : List AnthropicStreamEvent) : Nat :=
  l.countP fun e => match e with | .messageStart _ => true | _ => false

theorem msSeenAfter_append (l₁ l₂ : List AnthropicStreamEvent) (b : Bool) :
    msSeenAfter b (l₁ ++ l₂) = msSeenAfter (msSeenAfter b l₁) l₂ := by
  induction l₁ generalizing b with
  | nil => rfl
  | cons e rest ih => cases e <;> simp [msSeenAfter, ih]

theorem msDiscipline_append (l₁ l₂ : List AnthropicStreamEvent) (b : Bool) :
    msDiscipline b (l₁ ++ l₂) =
      (msDiscipline b l₁ && msDiscipline (msSeenAfter b l₁) l₂) := by
  induction l₁ generalizing b with
  | nil => rfl
  | cons e rest ih =>
    cases e <;> simp [msDiscipline, msSeenAfter, ih, Bool.and_assoc]

theorem msDiscipline_count (l : List AnthropicStreamEvent) (b : Bool)
    (h : msDiscipline b l = true) : msCount l ≤ (if b then 0 else 1) := by
  induction l generalizing b with
  | nil => simp [msCount]
  | cons e rest ih =>
    cases e with
    | messageStart id =>
      simp only [msDiscipline, Bool.and_eq_true, Bool.not_eq_true'] at h
      obtain ⟨hb, hrest⟩ := h
      subst hb
      have hr : msCount rest = 0 := Nat.le_zero.mp (by simpa using ih true hrest)
      have hstep : msCount (AnthropicStreamEvent.messageStart id :: rest) =
          msCount rest + 1 := by
        simp [msCount, List.countP_cons]
      simp [hstep, hr]
    | contentBlockStart i blk =>
      simp only [msDiscipline, Bool.and_eq_true] at h
      have := ih b h.2
      simpa [msCount, List.countP_cons] using this
    | contentBlockDelta i d =>
      have := ih b (by simpa [msDiscipline] using h)
      simpa [msCount, List.countP_cons] using this
    | contentBlockStop i =>
      have := ih b (by simpa [msDiscipline] using h)
      simpa [msCount, List.countP_cons] using this
    | messageDelta sr u =>
      have := ih b (by simpa [msDiscipline] using h)
      simpa [msCount, List.countP_cons] using this
    | messageStop =>
      have := ih b (by simpa [msDiscipline] using h)
      simpa [msCount, List.countP_cons] using this

/-- One step of the converter keeps the discipline: the events it emits are
well-ordered with respect to the current `messageStartSent` flag, and the
flag after the emitted events is the new state's flag. -/
theorem processEvent_discipline (bytes : Nat → Nat) (s : ConvState) (e : CodexStreamEvent) :
    msDiscipline s.messageStartSent (processEvent bytes s e).2 = true ∧
    msSeenAfter s.messageStartSent (processEvent bytes s e).2 =
      (processEvent bytes s e).1.messageStartSent := by
  cases e with
  | responseCreated =>
    cases hs : s.messageStartSent <;>
      simp [processEvent, ensureMessageStart, hs, msDiscipline, msSeenAfter]
  | outputItemAdded item =>
    cases hs : s.messageStartSent <;>
      simp only [processEvent, handleOutputItemAdded, ensureMessageStart, hs, if_true,
        if_false, Bool.false_eq_true] <;>
      split_ifs <;>
      simp [msDiscipline, msSeenAfter, hs]
  | reasoningSummaryPartAdded =>
    cases hs : s.messageStartSent <;>
      simp [processEvent, handleReasoningSummaryPartAdded, ensureMessageStart, hs,
        msDiscipline, msSeenAfter]
  | reasoningSummaryTextDelta delta =>
    by_cases hd : truthy delta = true <;>
      simp [processEvent, hd, msDiscipline, msSeenAfter]
  | reasoningSummaryPartDone =>
    simp [processEvent, handleBlockStop, msDiscipline, msSeenAfter]
  | contentPartAdded part =>
    cases hs : s.messageStartSent <;>
      simp only [processEvent, handleContentPartAdded, ensureMessageStart, hs, if_true,
        if_false, Bool.false_eq_true] <;>
      split_ifs <;>
      simp [msDiscipline, msSeenAfter, hs]
  | outputTextDelta delta =>
    by_cases hd : truthy delta = true <;>
      simp [processEvent, hd, msDiscipline, msSeenAfter]
  | contentPartDone =>
    simp [processEvent, handleBlockStop, msDiscipline, msSeenAfter]
  | functionCallArgumentsDelta delta =>
    by_cases hd : truthy delta = true <;>
      simp [processEvent, hd, msDiscipline, msSeenAfter]
  | outputItemDone item =>
    simp only [processEvent, handleOutputItemDone, handleBlockStop]
    split_ifs <;> simp [msDiscipline, msSeenAfter]
  | responseCompleted resp =>
    simp only [processEvent, handleResponseCompleted]
    cases hsr : streamStopReason resp <;> simp [msDiscipline, msSeenAfter]
  | otherEvent =>
    simp [processEvent, msDiscipline, msSeenAfter]

/-- The whole run keeps the discipline. -/
theorem processEvents_discipline (bytes : Nat → Nat) (events : List CodexStreamEvent) :
    ∀ s : ConvState,
      msDiscipline s.messageStartSent (processEvents bytes s events).2 = true ∧
      msSeenAfter s.messageStartSent (processEvents bytes s events).2 =
        (processEvents bytes s events).1.messageStartSent := by
  induction events with
  | nil => intro s; simp [processEvents, msDiscipline, msSeenAfter]
  | cons e rest ih =>
    intro s
    have h₁ := processEvent_discipline bytes s e
    have h₂ := ih (processEvent bytes s e).1
    constructor
    · simp only [processEvents, msDiscipline_append, h₁.1, Bool.true_and, h₁.2]
      exact h₂.1
    · simp only [processEvents, msSeenAfter_append, h₁.2]
      exact h₂.2

/-- C1, amended: over every upstream event sequence, `message_start` is
emitted at most once, and it precedes every `content_block_start`.  (A
`content_block_delta` or `content_block_stop` can be emitted before
`message_start` when a malformed upstream stream sends a delta or done
event first: those handlers never call `_ensureMessageStart`.) -/
theorem claim1_message_start_discipline :
    (∀ (bytes : Nat → Nat) (tim : List (JsValue × String)) (events : List CodexStreamEvent),
      msDiscipline false (processEvents bytes (initConvState bytes tim) events).2 = true) ∧
    (∀ (bytes : Nat → Nat) (tim : List (JsValue × String)) (events : List CodexStreamEvent),
      msCount (processEvents bytes (initConvState bytes tim) events).2 ≤ 1) := by
  constructor
  · intro bytes tim events
    exact (processEvents_discipline bytes events (initConvState bytes tim)).1
  · intro bytes tim events
    have h := (processEvents_discipline bytes events (initConvState bytes tim)).1
    have := msDiscipline_count _ false h
    simpa using this

/-- C1, counterexample to the claim as stated: feeding the single upstream
event `response.output_text.delta` with a non-empty delta emits a
`content_block_delta` with no preceding `message_start`. -/
theorem claim1_counterexample :
    (processEvents constBytes (initConvState constBytes [])
        [.outputTextDelta (.vStr "x")]).2 =
      [.contentBlockDelta 0 (.textDelta (.vStr "x"))] ∧
    msDisciplineClaimed false
      (processEvents constBytes (initConvState constBytes [])
        [.outputTextDelta (.vStr "x")]).2 = false := by
  refine ⟨by decide, by decide⟩

/-- Is an output item a `function_call` (total read, for non-nullish items)? -/
def outputItemIsFunctionCall (i : JsValue) : Bool :=
  jsGet i "type" = .vStr "function_call"

/-- The stop-reason derivation as claim C6 states it: `end_turn` by
default, `max_tokens` on `incomplete`/`max_output_tokens`, and `tool_use`
whenever any output item is a `function_call`, overriding both.  (Written
from the claim's words, to be compared with the two code paths.) -/
def claimStopReason (response : CodexResponsePayload) : String :=
  if response.output.any outputItemIsFunctionCall then "tool_use"
  else if response.status = .vStr "incomplete" ∧
          optChain response.incomplete_details "reason" = .vStr "max_output_tokens" then
    "max_tokens"
  else "end_turn"

/-- A successful `getProp` returns the total field read. -/
theorem getProp_ok_eq (v : JsValue) (k : String) (t : JsValue)
    (h : getProp v k = .ok t) : jsGet v k = t := by
  cases v <;> simp [getProp] at h <;> exact h

/-- `message` items translate to text blocks only — never `tool_use`. -/
theorem messagePartBlocks_no_toolUse (l : List JsValue) (bs : List AnthropicBlock)
    (h : messagePartBlocks l = .ok bs) : bs.any isToolUseBlock = false := by
  induction l generalizing bs with
  | nil =>
    simp only [messagePartBlocks, Except.ok.injEq] at h
    rw [← h]; rfl
  | cons p rest ih =>
    simp only [messagePartBlocks] at h
    cases hp : getProp p "type" with
    | error e => rw [hp, Except_bind_error] at h; exact absurd h (by simp)
    | ok t =>
      rw [hp, Except_bind_ok] at h
      cases hm : messagePartBlocks rest with
      | error e => rw [hm, Except_bind_error] at h; exact absurd h (by simp)
      | ok more =>
        rw [hm, Except_bind_ok] at h
        by_cases ht : t = .vStr "output_text"
        · rw [if_pos ht] at h
          simp only [Except.ok.injEq] at h
          rw [← h]
          simpa [isToolUseBlock] using ih more hm
        · rw [if_neg ht] at h
          simp only [Except.ok.injEq] at h
          rw [← h]
          exact ih more hm

/-- When the non-streaming content loop succeeds, (a) its content has a
`tool_use` block exactly when some output item is a `function_call`, and
(b) the streaming `some(...)` scan succeeds with that same Boolean. -/
theorem itemsToContent_stopReason (bytes : Nat → Nat) (rev : List (String × JsValue)) :
    ∀ (items : List JsValue) (rnd : Nat) (res : List AnthropicBlock × Nat),
      itemsToContent bytes rev items rnd = .ok res →
      (res.1.any isToolUseBlock = items.any outputItemIsFunctionCall) ∧
      jsSomeIsFunctionCall items = .ok (items.any outputItemIsFunctionCall) := by
  intro items
  induction items with
  | nil =>
    intro rnd res h
    simp only [itemsToContent, Except.ok.injEq] at h
    rw [← h]
    simp [jsSomeIsFunctionCall]
  | cons item rest ih =>
    intro rnd res h
    simp only [itemsToContent] at h
    cases hp : getProp item "type" with
    | error e =>
      rw [hp, Except_bind_error] at h; exact absurd h (by simp)
    | ok t =>
      rw [hp, Except_bind_ok] at h
      have hjt : jsGet item "type" = t := getProp_ok_eq item "type" t hp
      by_cases h₁ : t = .vStr "reasoning"
      · rw [if_pos h₁] at h
        cases hm : jsMapReceiver (jsOr (jsGet item "summary") (jsArr [])) with
        | error e => rw [hm, Except_bind_error] at h; exact absurd h (by simp)
        | ok parts =>
          rw [hm, Except_bind_ok] at h
          cases hs2 : summaryTexts parts with
          | error e => rw [hs2, Except_bind_error] at h; exact absurd h (by simp)
          | ok texts =>
            rw [hs2, Except_bind_ok] at h
            cases hr : itemsToContent bytes rev rest rnd with
            | error e => rw [hr, Except_bind_error] at h; exact absurd h (by simp)
            | ok res₂ =>
              rw [hr, Except_bind_ok] at h
              simp only [Except.ok.injEq] at h
              have hih := ih rnd res₂ hr
              constructor
              · rw [← h]
                have : outputItemIsFunctionCall item = false := by
                  simp [outputItemIsFunctionCall, hjt, h₁]
                simp [List.any_append, hih.1, this, isToolUseBlock]
              · simp only [jsSomeIsFunctionCall, hp, Except_bind_ok]
                rw [if_neg (by simp [h₁])]
                rw [hih.2]
                have : outputItemIsFunctionCall item = false := by
                  simp [outputItemIsFunctionCall, hjt, h₁]
                simp [this]
      · rw [if_neg h₁] at h
        by_cases h₂ : t = .vStr "message"
        · rw [if_pos h₂] at h
          cases he : jsIterate (jsOr (jsGet item "content") (jsArr [])) with
          | error e => rw [he, Except_bind_error] at h; exact absurd h (by simp)
          | ok elems =>
            rw [he, Except_bind_ok] at h
            cases hb : messagePartBlocks elems with
            | error e => rw [hb, Except_bind_error] at h; exact absurd h (by simp)
            | ok blocks =>
              rw [hb, Except_bind_ok] at h
              cases hr : itemsToContent bytes rev rest rnd with
              | error e => rw [hr, Except_bind_error] at h; exact absurd h (by simp)
              | ok res₂ =>
                rw [hr, Except_bind_ok] at h
                simp only [Except.ok.injEq] at h
                have hih := ih rnd res₂ hr
                have hfc : outputItemIsFunctionCall item = false := by
                  simp [outputItemIsFunctionCall, hjt, h₂]
                constructor
                · rw [← h]
                  simp [List.any_append, hih.1, hfc,
                    messagePartBlocks_no_toolUse elems blocks hb]
                · simp only [jsSomeIsFunctionCall, hp, Except_bind_ok]
                  rw [if_neg (by simp [h₂])]
                  rw [hih.2]
                  simp [hfc]
        · rw [if_neg h₂] at h
          by_cases h₃ : t = .vStr "function_call"
          · rw [if_pos h₃] at h
            cases hr : itemsToContent bytes rev rest
                (if truthy ((mapGetStr rev (jsGet item "call_id")).getD .vUndefined) then
                   ((mapGetStr rev (jsGet item "call_id")).getD .vUndefined, rnd)
                 else
                   (.vStr ("toolu_" ++ bytesToHex bytes rnd 12), rnd + 12)).2 with
            | error e => rw [hr, Except_bind_error] at h; exact absurd h (by simp)
            | ok res₂ =>
              rw [hr, Except_bind_ok] at h
              simp only [Except.ok.injEq] at h
              have hfc : outputItemIsFunctionCall item = true := by
                simp [outputItemIsFunctionCall, hjt, h₃]
              constructor
              · rw [← h]
                simp [isToolUseBlock, hfc]
              · simp only [jsSomeIsFunctionCall, hp, Except_bind_ok]
                rw [if_pos h₃]
                simp [hfc]
          · rw [if_neg h₃] at h
            have hih := ih rnd res h
            have hfc : outputItemIsFunctionCall item = false := by
              simp [outputItemIsFunctionCall, hjt, h₃]
            constructor
            · simp [hih.1, hfc]
            · simp only [jsSomeIsFunctionCall, hp, Except_bind_ok]
              rw [if_neg (by simp [h₃])]
              rw [hih.2]
              simp [hfc]

/-- C6, amended: whenever the non-streaming translation succeeds, the
streaming converter derives the same stop reason from the same payload,
and that stop reason is exactly the claimed derivation (`end_turn` by
default, `max_tokens` for `incomplete`/`max_output_tokens`, `tool_use`
whenever any output item is a `function_call`, overriding both).  The two
paths can disagree only when the non-streaming translation throws (see the
counterexample: a nullish output item after a `function_call`). -/
theorem claim6_stop_reason (bytes : Nat → Nat) (resp : CodexResponsePayload)
    (bm : JsValue) (tim : List (JsValue × String)) (res : AnthropicMessage)
    (h : convertCodexResponseToAnthropic bytes resp bm tim = .ok res) :
    streamStopReason resp = .ok res.stop_reason ∧
    res.stop_reason = claimStopReason resp := by
  simp only [convertCodexResponseToAnthropic] at h
  cases hc : itemsToContent bytes (reverseToolIdMapOf tim) resp.output 0 with
  | error e => rw [hc, Except_bind_error] at h; exact absurd h (by simp)
  | ok cres =>
    rw [hc, Except_bind_ok] at h
    simp only [Except.ok.injEq] at h
    have hspec := itemsToContent_stopReason bytes (reverseToolIdMapOf tim)
      resp.output 0 cres hc
    have hstop : res.stop_reason =
        (if resp.output.any outputItemIsFunctionCall then "tool_use"
         else if resp.status = .vStr "incomplete" ∧
                 optChain resp.incomplete_details "reason" = .vStr "max_output_tokens" then
           "max_tokens"
         else "end_turn") := by
      rw [← h]
      simp only []
      rw [hspec.1]
    constructor
    · simp only [streamStopReason, hspec.2, Except_bind_ok]
      rw [hstop]
    · rw [hstop]; rfl

/-- A `response.completed` payload with a `function_call` item followed by
a `null` item. -/
def functionCallThenNullPayload : CodexResponsePayload :=
  { status := .vUndefined, incomplete_details := .vUndefined,
    output := [jsObj [("type", .vStr "function_call")], .vNull],
    usage := .vUndefined }

/-- C6, counterexample to the claim as stated: on an output containing a
`function_call` item followed by `null`, the streaming converter
short-circuits and derives `tool_use`, while the non-streaming translator
walks every item, throws on `null.type`, and derives no stop reason at
all — the two paths do not derive the same stop reason from this payload. -/
theorem claim6_counterexample :
    streamStopReason functionCallThenNullPayload = .ok "tool_use" ∧
    convertCodexResponseToAnthropic constBytes functionCallThenNullPayload
      (.vStr "m") [] = .error () := by
  refine ⟨by decide, by decide⟩

/-- The empty `response.completed` payload. -/
def emptyResponsePayload : CodexResponsePayload :=
  { status := .vUndefined, incomplete_details := .vUndefined, output := [], usage := .vUndefined }

/-- The message the non-streaming translator synthesizes from the empty
payload under the constant byte supply. -/
def emptyResponseMessage : AnthropicMessage :=
  { id := "msg_00000000000000000000000000000000",
    model := CODEX_RESPONSE_MODEL_ALIAS,
    content := [],
    stop_reason := "end_turn",
    usage := { input_tokens := 0, output_tokens := 0,
               cache_creation_input_tokens := 0, cache_read_input_tokens := 0 } }

/-- C6, witness: on the empty payload the non-streaming translation
succeeds and both derivations agree on `end_turn`. -/
theorem claim6_witness :
    streamStopReason emptyResponsePayload = .ok emptyResponseMessage.stop_reason ∧
    emptyResponseMessage.stop_reason = claimStopReason emptyResponsePayload :=
  claim6_stop_reason constBytes emptyResponsePayload (.vStr "m") []
    emptyResponseMessage (by decide)

/-- `hexDigit n` is a hex character for `n < 16`. -/
theorem hexDigit_isHex (n : Nat) (h : n < 16) : isHexChar (hexDigit n) = true := by
  interval_cases n <;> decide

/-- One byte renders as two hex characters. -/
theorem byteToHexChars_spec (b : Nat) :
    (byteToHexChars b).length = 2 ∧ (byteToHexChars b).all isHexChar = true := by
  refine ⟨rfl, ?_⟩
  have h₁ : b % 256 / 16 < 16 := by omega
  have h₂ : b % 256 % 16 < 16 := by omega
  simp [byteToHexChars, hexDigit_isHex _ h₁, hexDigit_isHex _ h₂]

/-- Flattening two-character hex chunks. -/
theorem flatten_hex_chunks (bs : List (List Char))
    (h : ∀ c ∈ bs, c.length = 2 ∧ c.all isHexChar = true) :
    bs.flatten.length = 2 * bs.length ∧ bs.flatten.all isHexChar = true := by
  induction bs with
  | nil => simp
  | cons c rest ih =>
    have hc := h c (by simp)
    have hr := ih fun d hd => h d (by simp [hd])
    constructor
    · simp [List.flatten, hc.1, hr.1]; omega
    · simp only [List.flatten, List.all_append]
      rw [hc.2, hr.2]
      rfl

/-- The random hex run: `count` bytes render as `2*count` hex characters. -/
theorem bytesToHex_spec (bytes : Nat → Nat) (start count : Nat) :
    (bytesToHex bytes start count).data.length = 2 * count ∧
    (bytesToHex bytes start count).data.all isHexChar = true := by
  unfold bytesToHex
  have h := flatten_hex_chunks ((List.range count).map fun i => byteToHexChars (bytes (start + i)))
    (by
      intro c hc
      simp only [List.mem_map] at hc
      obtain ⟨i, _, hi⟩ := hc
      rw [← hi]
      exact byteToHexChars_spec (bytes (start + i)))
  simpa using h

/-- A well-formed freshly minted Codex call ID: the prefix `call_` followed
by 24 lowercase hex characters. -/
def callIdWellFormed (s : String) : Prop :=
  ∃ t : String, s = "call_" ++ t ∧ t.data.length = 24 ∧ t.data.all isHexChar = true

/-- Every generated call ID is well formed. -/
theorem generateCodexCallId_wellFormed (bytes : Nat → Nat) (idx : Nat) :
    callIdWellFormed (generateCodexCallId bytes idx) := by
  refine ⟨bytesToHex bytes idx 12, rfl, ?_, (bytesToHex_spec bytes idx 12).2⟩
  simpa using (bytesToHex_spec bytes idx 12).1

/-- A generated call ID is never the empty string. -/
theorem generateCodexCallId_ne_empty (bytes : Nat → Nat) (idx : Nat) :
    generateCodexCallId bytes idx ≠ "" := by
  intro h
  have hd := congrArg String.data h
  rw [generateCodexCallId, String.data_append] at hd
  simp at hd

/-- C7: translating a Messages request holding an assistant `tool_use` with
id `I` followed by a user `tool_result` with `tool_use_id = I` yields
exactly one `function_call` and exactly one `function_call_output`, with
the same synthesized `call_id` of the form `call_` + 24 hex characters,
and the tool-ID map records `I ↦ call_id`. -/
theorem claim7_tool_round_trip (bytes : Nat → Nat) (toolUseId : String)
    (nameV inputV : JsValue) (resultText : String) :
    ∃ cid : String,
      convertMessagesToCodexInput bytes
        [jsObj [("role", .vStr "assistant"),
                ("content", jsArr [jsObj [("type", .vStr "tool_use"),
                                          ("id", .vStr toolUseId),
                                          ("name", nameV), ("input", inputV)]])],
         jsObj [("role", .vStr "user"),
                ("content", jsArr [jsObj [("type", .vStr "tool_result"),
                                          ("tool_use_id", .vStr toolUseId),
                                          ("content", .vStr resultText)]])]] =
        .ok ([.functionCall cid nameV (jsArguments inputV),
              .functionCallOutput (.vStr cid) resultText],
             [(.vStr toolUseId, cid)]) ∧
      callIdWellFormed cid := by
  refine ⟨generateCodexCallId bytes 0, ?_, generateCodexCallId_wellFormed bytes 0⟩
  have hne : ¬(generateCodexCallId bytes 0 = "") := generateCodexCallId_ne_empty bytes 0
  simp [convertMessagesToCodexInput, List.foldlM, processMessage, processUserBlock,
    processAssistantBlock, normalizeContent, toolResultOutputText, getProp, jsGet,
    objFieldsOf, jsObj, jsArr, JsFields.toList, JsFields.ofList, JsArr.toList,
    JsArr.ofList, findField, mapGet, mapSet, truthy, jsOr, hne,
    Except_bind_ok, Except_bind_error]

/-- Deleting one key leaves every other key's lookup unchanged. -/
theorem findField_deleteField (fs : List (String × JsValue)) (k k' : String)
    (h : k ≠ k') : findField (jsDeleteField fs k) k' = findField fs k' := by
  induction fs with
  | nil => rfl
  | cons p rest ih =>
    obtain ⟨k₀, v₀⟩ := p
    rw [jsDeleteField]
    by_cases hk : k₀ = k
    · rw [if_pos hk, ih, findField, if_neg (by rw [hk]; exact fun hc => h hc)]
    · rw [if_neg hk, findField, findField]
      by_cases hk' : k₀ = k'
      · rw [if_pos hk', if_pos hk']
      · rw [if_neg hk', if_neg hk', ih]

/-- The strip loop leaves every key it does not target unchanged. -/
theorem findField_stripFieldsLoop (fsl : List JsValue)
    (fields : List (String × JsValue)) (k : String)
    (h : ∀ f ∈ fsl, propKey f ≠ k) :
    findField (stripFieldsLoop fsl fields).1 k = findField fields k := by
  induction fsl generalizing fields with
  | nil => rfl
  | cons f rest ih =>
    have hf : propKey f ≠ k := h f (by simp)
    have hrest : ∀ g ∈ rest, propKey g ≠ k := fun g hg => h g (by simp [hg])
    simp only [stripFieldsLoop]
    by_cases hown : hasOwnField fields (propKey f) = true
    · rw [if_pos hown]
      simp only []
      rw [ih (jsDeleteField fields (propKey f)) hrest,
        findField_deleteField fields (propKey f) k hf]
    · rw [if_neg hown]
      exact ih fields hrest

/-- Replacing under an existing key makes the lookup return the new value. -/
theorem findField_replaceField (fs : List (String × JsValue)) (k : String) (v : JsValue)
    (h : hasOwnField fs k = true) : findField (replaceField fs k v) k = some v := by
  induction fs with
  | nil => simp [hasOwnField] at h
  | cons p rest ih =>
    obtain ⟨k₀, v₀⟩ := p
    rw [replaceField]
    by_cases hk : k₀ = k
    · rw [if_pos hk, findField, if_pos rfl]
    · rw [if_neg hk, findField, if_neg hk]
      rw [hasOwnField, Bool.or_eq_true] at h
      cases h with
      | inl h₁ => exact absurd (by simpa using h₁) hk
      | inr h₂ => exact ih h₂

/-- The lookup of a key absent from the front part skips it. -/
theorem findField_append_missing (fs l : List (String × JsValue)) (k : String)
    (h : hasOwnField fs k = false) : findField (fs ++ l) k = findField l k := by
  induction fs with
  | nil => rfl
  | cons p rest ih =>
    obtain ⟨k₀, v₀⟩ := p
    rw [hasOwnField, Bool.or_eq_false_iff] at h
    rw [List.cons_append, findField, if_neg (by simpa using h.1)]
    exact ih h.2

/-- Looking a key up after `jsSetField` returns the new value. -/
theorem findField_setField_self (fs : List (String × JsValue)) (k : String) (v : JsValue) :
    findField (jsSetField fs k v) k = some v := by
  unfold jsSetField
  by_cases hown : hasOwnField fs k = true
  · rw [if_pos hown]
    exact findField_replaceField fs k v hown
  · rw [if_neg hown]
    rw [findField_append_missing fs [(k, v)] k (by simpa using hown)]
    simp [findField]

/-- `jsGet` on an object literal is the association-list lookup. -/
theorem jsGet_jsObj (l : List (String × JsValue)) (k : String) :
    jsGet (jsObj l) k = (findField l k).getD .vUndefined := by
  simp [jsGet, jsObj, objFieldsOf, jsFields_toList_ofList]

/-- No default strip field targets `instructions`. -/
theorem default_fields_ne_instructions :
    ∀ f ∈ DEFAULT_NON_CODEX_FIELDS_TO_REMOVE, propKey f ≠ "instructions" := by
  decide

/-- C9: when neither the configured `instructions.text` nor the
caller-supplied default is a non-blank string, the adapter leaves the
body's `instructions` field unchanged and records no instructions change —
for every body, mode (including `overwrite`), applyWhen and client kind
(the configuration's `stripFields` slot is left at its default, whose field
list does not contain `instructions`). -/
theorem claim9_blank_server_text (body modeV applyV textV defV : JsValue)
    (isCLI : Bool)
    (hText : isNonEmptyString textV = false)
    (hDef : isNonEmptyString defV = false) :
    jsGet (adaptCodexRequestBody body
      { isCodexCLI := isCLI,
        adapterConfig :=
          jsObj [("instructions",
                   jsObj [("mode", modeV), ("applyWhen", applyV), ("text", textV)])],
        defaultInstructionsText := defV }).body "instructions" =
      jsGet body "instructions" ∧
    (adaptCodexRequestBody body
      { isCodexCLI := isCLI,
        adapterConfig :=
          jsObj [("instructions",
                   jsObj [("mode", modeV), ("applyWhen", applyV), ("text", textV)])],
        defaultInstructionsText := defV }).changes.instructions = none := by
  have hset : resolveAdapterConfig
      (jsObj [("instructions",
                jsObj [("mode", modeV), ("applyWhen", applyV), ("text", textV)])]) defV =
      { enabled := true,
        instructions :=
          { mode := normalizeInstructionsMode modeV,
            applyWhen := normalizeApplyWhen (jsOr applyV .vUndefined),
            text := defV },
        stripFields := { enabled := true, fields := DEFAULT_NON_CODEX_FIELDS_TO_REMOVE } } := by
    simp [resolveAdapterConfig, jsGet_jsObj, findField, jsGet, objFieldsOf, jsObj,
      jsFields_toList_ofList, truthy, typeOf, hText]
  by_cases hobj : truthy body = true ∧ typeOf body = "object"
  · simp only [adaptCodexRequestBody, hset]
    rw [if_neg (by simpa using hobj)]
    rw [if_neg (by simp)]
    have hcond : ¬((normalizeApplyWhen (jsOr applyV JsValue.vUndefined) = "all" ∨ ¬isCLI = true) ∧
        isNonEmptyString defV = true) := by
      simp [hDef]
    constructor
    · rw [if_neg hcond, jsGet_jsObj]
      by_cases hcli : isCLI = true
      · rw [if_neg (by simp [hcli])]
        rfl
      · rw [if_pos ⟨hcli, trivial⟩]
        simp only []
        rw [findField_stripFieldsLoop _ _ _ default_fields_ne_instructions]
        rfl
    · rw [if_neg hcond]
  · simp only [adaptCodexRequestBody]
    rw [if_pos (by simpa using hobj)]
    exact ⟨rfl, rfl⟩

/-- C9, witness: with `mode: 'overwrite'`, `applyWhen: 'all'`, an undefined
configured text and an undefined default, a non-CLI client's instructions
field survives unchanged and no instructions change is recorded. -/
theorem claim9_witness :
    jsGet (adaptCodexRequestBody (jsObj [("instructions", .vStr "C")])
      { isCodexCLI := false,
        adapterConfig :=
          jsObj [("instructions",
                   jsObj [("mode", .vStr "overwrite"), ("applyWhen", .vStr "all"),
                          ("text", .vUndefined)])],
        defaultInstructionsText := .vUndefined }).body "instructions" =
      jsGet (jsObj [("instructions", .vStr "C")]) "instructions" ∧
    (adaptCodexRequestBody (jsObj [("instructions", .vStr "C")])
      { isCodexCLI := false,
        adapterConfig :=
          jsObj [("instructions",
                   jsObj [("mode", .vStr "overwrite"), ("applyWhen", .vStr "all"),
                          ("text", .vUndefined)])],
        defaultInstructionsText := .vUndefined }).changes.instructions = none :=
  claim9_blank_server_text (jsObj [("instructions", .vStr "C")])
    (.vStr "overwrite") (.vStr "all") .vUndefined .vUndefined false rfl rfl

/-- `objFieldsOf` of an object literal. -/
theorem objFieldsOf_jsObj (l : List (String × JsValue)) : objFieldsOf (jsObj l) = l := by
  simp [jsObj, objFieldsOf, jsFields_toList_ofList]

/-- A value passing `isNonEmptyString` is the string the adapter extracts
from it. -/
theorem isNonEmptyString_vStr (v : JsValue) :
    isNonEmptyString v = true → v = .vStr (match v with | .vStr s => s | _ => "") := by
  cases v <;> intro h <;> simp [isNonEmptyString] at h ⊢

/-- `isNonEmptyString` agrees with the adapter's
`hasClientInstructions` computation. -/
theorem isNonEmptyString_as_client (v : JsValue) :
    isNonEmptyString v =
      decide (jsTrim (match v with | .vStr s => s | _ => "") ≠ "") := by
  cases v <;> simp [isNonEmptyString, jsTrim]

/-- C4: with the adapter enabled, resolved mode `none`, the instruction
scope applying (`applyWhen = 'all'` or a non-CLI client), a non-blank
resolved server text, and a strip list that does not target
`instructions` (the default list does not): if the client's instructions
field is blank or absent the adapter sets `instructions` to the server
text and annotates the change as the `none`-mode fallback
(`{mode:'none', clientMissing:true, fallback:true}`); otherwise it leaves
the client's value unchanged and records no instructions change. -/
theorem claim4_none_mode_backfill (fs : List (String × JsValue)) (opts : AdapterOptions)
    (hEnabled :
      (resolveAdapterConfig opts.adapterConfig opts.defaultInstructionsText).enabled = true)
    (hMode :
      (resolveAdapterConfig opts.adapterConfig
        opts.defaultInstructionsText).instructions.mode = "none")
    (hScope :
      (resolveAdapterConfig opts.adapterConfig
        opts.defaultInstructionsText).instructions.applyWhen = "all" ∨
      opts.isCodexCLI = false)
    (hServer :
      isNonEmptyString
        (resolveAdapterConfig opts.adapterConfig
          opts.defaultInstructionsText).instructions.text = true)
    (hStrip :
      ∀ f ∈ (resolveAdapterConfig opts.adapterConfig
          opts.defaultInstructionsText).stripFields.fields, propKey f ≠ "instructions") :
    (isNonEmptyString (jsGet (jsObj fs) "instructions") = false →
      jsGet (adaptCodexRequestBody (jsObj fs) opts).body "instructions" =
        (resolveAdapterConfig opts.adapterConfig
          opts.defaultInstructionsText).instructions.text ∧
      (adaptCodexRequestBody (jsObj fs) opts).changes.instructions =
        some .noneFallback) ∧
    (isNonEmptyString (jsGet (jsObj fs) "instructions") = true →
      jsGet (adaptCodexRequestBody (jsObj fs) opts).body "instructions" =
        jsGet (jsObj fs) "instructions" ∧
      (adaptCodexRequestBody (jsObj fs) opts).changes.instructions = none) := by
  simp only [adaptCodexRequestBody]
  rw [if_neg (by simp [jsObj, truthy, typeOf])]
  rw [if_neg (by simp [hEnabled])]
  have hscope₂ :
      (resolveAdapterConfig opts.adapterConfig
        opts.defaultInstructionsText).instructions.applyWhen = "all" ∨
      ¬opts.isCodexCLI = true := by
    rcases hScope with h | h
    · exact Or.inl h
    · exact Or.inr (by simp [h])
  have hpres : findField
      (if ¬opts.isCodexCLI = true ∧
          (resolveAdapterConfig opts.adapterConfig
            opts.defaultInstructionsText).stripFields.enabled = true then
        stripFieldsLoop
          (resolveAdapterConfig opts.adapterConfig
            opts.defaultInstructionsText).stripFields.fields
          (objFieldsOf (jsObj fs))
      else (objFieldsOf (jsObj fs), [])).1 "instructions" = findField fs "instructions" := by
    split_ifs with hc
    · rw [findField_stripFieldsLoop _ _ _ hStrip, objFieldsOf_jsObj]
    · rw [objFieldsOf_jsObj]
  rw [if_pos ⟨hscope₂, hServer⟩]
  rw [if_neg (by simp [hMode])]
  rw [if_neg (by simp [hMode])]
  rw [if_pos hMode]
  constructor
  · intro hclient
    have hclient₂ :
        ¬(jsTrim (match jsGet (jsObj fs) "instructions" with
            | JsValue.vStr s => s
            | _ => "") ≠ "") := by
      have := isNonEmptyString_as_client (jsGet (jsObj fs) "instructions")
      rw [hclient] at this
      simpa using this.symm
    rw [if_pos hclient₂]
    refine ⟨?_, rfl⟩
    rw [jsGet_jsObj, findField_setField_self]
    simp only [Option.getD_some]
    exact (isNonEmptyString_vStr _ hServer).symm

  · intro hclient
    have hclient₂ :
        jsTrim (match jsGet (jsObj fs) "instructions" with
            | JsValue.vStr s => s
            | _ => "") ≠ "" := by
      have := isNonEmptyString_as_client (jsGet (jsObj fs) "instructions")
      rw [hclient] at this
      simpa using this.symm
    rw [if_neg (by simpa using hclient₂)]
    refine ⟨?_, rfl⟩
    rw [jsGet_jsObj, hpres, jsGet_jsObj]

/-- The concrete adapter options used by the C4 witness: enabled, mode
`none`, scope `all`, server text `SERVER`, default strip list. -/
def noneModeOptions : AdapterOptions :=
  { isCodexCLI := false,
    adapterConfig :=
      jsObj [("instructions",
               jsObj [("mode", .vStr "none"), ("applyWhen", .vStr "all"),
                      ("text", .vStr "SERVER")])],
    defaultInstructionsText := .vUndefined }

/-- C4, witness: at an empty body (blank client instructions) and the
concrete `none`-mode configuration, the hypotheses hold and the adapter
backfills the server text with the fallback annotation. -/
theorem claim4_witness :
    (isNonEmptyString (jsGet (jsObj []) "instructions") = false →
      jsGet (adaptCodexRequestBody (jsObj []) noneModeOptions).body "instructions" =
        (resolveAdapterConfig noneModeOptions.adapterConfig
          noneModeOptions.defaultInstructionsText).instructions.text ∧
      (adaptCodexRequestBody (jsObj []) noneModeOptions).changes.instructions =
        some .noneFallback) ∧
    (isNonEmptyString (jsGet (jsObj []) "instructions") = true →
      jsGet (adaptCodexRequestBody (jsObj []) noneModeOptions).body "instructions" =
        jsGet (jsObj []) "instructions" ∧
      (adaptCodexRequestBody (jsObj []) noneModeOptions).changes.instructions = none) :=
  claim4_none_mode_backfill [] noneModeOptions (by decide) (by decide)
    (by decide) (by decide) (by decide)

/-- Not `null` and not `undefined`: member access cannot throw. -/
def nonNullish : JsValue → Bool
  | .vNull => false
  | .vUndefined => false
  | _ => true

/-- Is a value a string or an array? -/
def isStringOrArray : JsValue → Bool
  | .vStr _ => true
  | .vArr _ => true
  | _ => false

/-- For a `tool_result` block, its array content (if any) has no nullish
elements (the filter callback reads `.type` on each element). -/
def toolResultContentOk (b : JsValue) : Bool :=
  if jsGet b "type" = .vStr "tool_result" then
    match jsGet b "content" with
    | .vArr xs => xs.toList.all nonNullish
    | _ => true
  else true

/-- A content block on which translation cannot throw. -/
def blockTotalOk (b : JsValue) : Bool := nonNullish b && toolResultContentOk b

/-- A turn on which translation cannot throw. -/
def turnTotalOk (m : JsValue) : Bool :=
  nonNullish m && (normalizeContent (jsGet m "content")).all blockTotalOk

/-- Member access on a non-nullish value never throws. -/
theorem getProp_nonNullish (v : JsValue) (k : String) (h : nonNullish v = true) :
    getProp v k = .ok (jsGet v k) := by
  cases v <;> first | rfl | simp [nonNullish] at h

/-- A content value that is neither a string nor an array normalizes to no
blocks. -/
theorem normalizeContent_other (v : JsValue) (h : isStringOrArray v = false) :
    normalizeContent v = [] := by
  cases v <;> simp [isStringOrArray] at h ⊢ <;> simp [normalizeContent, truthy]

/-- The tool-result text collection succeeds on non-nullish elements. -/
theorem toolResultTexts_ok (l : List JsValue) (h : l.all nonNullish = true) :
    ∃ ts, toolResultTexts l = .ok ts := by
  induction l with
  | nil => exact ⟨[], rfl⟩
  | cons c rest ih =>
    simp only [List.all_cons, Bool.and_eq_true] at h
    obtain ⟨ts, hts⟩ := ih h.2
    simp only [toolResultTexts, getProp_nonNullish c "type" h.1, Except_bind_ok, hts]
    by_cases hc : jsGet c "type" = .vStr "text"
    · exact ⟨_, by rw [if_pos hc]⟩
    · exact ⟨_, by rw [if_neg hc]⟩

/-- The tool-result output text succeeds whenever the content is not an
array holding a nullish element. -/
theorem toolResultOutputText_ok (content : JsValue)
    (h : ∀ xs, content = .vArr xs → xs.toList.all nonNullish = true) :
    ∃ t, toolResultOutputText content = .ok t := by
  cases content with
  | vArr xs =>
    obtain ⟨ts, hts⟩ := toolResultTexts_ok xs.toList (h xs rfl)
    exact ⟨String.intercalate "\n" ts,
      by simp only [toolResultOutputText, hts, Except_bind_ok]⟩
  | vStr s => exact ⟨s, rfl⟩
  | vUndefined => exact ⟨"", rfl⟩
  | vNull => exact ⟨"", rfl⟩
  | vBool b => exact ⟨"", rfl⟩
  | vNum n => exact ⟨"", rfl⟩
  | vObj fs => exact ⟨"", rfl⟩

/-- Binding a known success: the bind succeeds when the continuation does. -/
theorem exists_ok_bind {ε α β : Type} (e : Except ε α) (k : α → Except ε β) (t : α)
    (h : e = .ok t) (hk : ∃ b, k t = .ok b) : ∃ b, (e >>= k) = .ok b := by
  rw [h, Except_bind_ok]; exact hk

/-- A user-turn block never fails translation when it is total-safe. -/
theorem processUserBlock_ok (acc : MsgsAcc) (b : JsValue)
    (h : blockTotalOk b = true) : ∃ a, processUserBlock acc b = .ok a := by
  simp only [blockTotalOk, Bool.and_eq_true] at h
  simp only [processUserBlock, getProp_nonNullish b "type" h.1, Except_bind_ok]
  by_cases ht : jsGet b "type" = .vStr "text"
  · exact ⟨_, by rw [if_pos ht]⟩
  · rw [if_neg ht]
    by_cases hr : jsGet b "type" = .vStr "tool_result"
    · rw [if_pos hr]
      have hco : ∀ xs, jsGet b "content" = .vArr xs → xs.toList.all nonNullish = true := by
        intro xs hxs
        have := h.2
        rw [toolResultContentOk, if_pos hr, hxs] at this
        exact this
      obtain ⟨t, hto⟩ := toolResultOutputText_ok (jsGet b "content") hco
      exact exists_ok_bind _ _ t hto ⟨_, rfl⟩
    · exact ⟨acc, by rw [if_neg hr]⟩

/-- An assistant-turn block never fails translation when non-nullish. -/
theorem processAssistantBlock_ok (bytes : Nat → Nat) (acc : MsgsAcc) (b : JsValue)
    (h : nonNullish b = true) : ∃ a, processAssistantBlock bytes acc b = .ok a := by
  simp only [processAssistantBlock, getProp_nonNullish b "type" h, Except_bind_ok]
  by_cases h₁ : jsGet b "type" = .vStr "thinking"
  · exact ⟨acc, by rw [if_pos h₁]⟩
  · rw [if_neg h₁]
    by_cases h₂ : jsGet b "type" = .vStr "text"
    · exact ⟨_, by rw [if_pos h₂]⟩
    · rw [if_neg h₂]
      by_cases h₃ : jsGet b "type" = .vStr "tool_use"
      · exact ⟨_, by rw [if_pos h₃]⟩
      · exact ⟨acc, by rw [if_neg h₃]⟩

/-- A fold over block handlers that cannot fail cannot fail. -/
theorem foldlM_ok {α β : Type} (f : β → α → Except Unit β) (l : List α)
    (h : ∀ x ∈ l, ∀ acc, ∃ a, f acc x = .ok a) :
    ∀ acc, ∃ a, l.foldlM f acc = .ok a := by
  induction l with
  | nil => intro acc; exact ⟨acc, rfl⟩
  | cons x rest ih =>
    intro acc
    obtain ⟨a, ha⟩ := h x (by simp) acc
    obtain ⟨a₂, ha₂⟩ := ih (fun y hy => h y (by simp [hy])) a
    exact ⟨a₂, by simp only [List.foldlM_cons, ha, Except_bind_ok, ha₂]⟩

/-- A total-safe turn never fails translation. -/
theorem processMessage_ok (bytes : Nat → Nat) (acc : MsgsAcc) (m : JsValue)
    (h : turnTotalOk m = true) : ∃ a, processMessage bytes acc m = .ok a := by
  simp only [turnTotalOk, Bool.and_eq_true, List.all_eq_true] at h
  simp only [processMessage, getProp_nonNullish m "role" h.1, Except_bind_ok]
  by_cases hu : jsGet m "role" = .vStr "user"
  · rw [if_pos hu]
    exact foldlM_ok _ _
      (fun b hb acc₂ => processUserBlock_ok acc₂ b (h.2 b hb)) acc
  · rw [if_neg hu]
    by_cases ha : jsGet m "role" = .vStr "assistant"
    · rw [if_pos ha]
      refine foldlM_ok _ _ (fun b hb acc₂ => processAssistantBlock_ok bytes acc₂ b ?_) acc
      have := h.2 b hb
      simp only [blockTotalOk, Bool.and_eq_true] at this
      exact this.1
    · exact ⟨acc, by rw [if_neg ha]⟩

/-- C10, amended: (1) a turn whose content is neither a string nor an
array contributes no input items and does not fail; (2) a user-turn block
with any unhandled type is silently dropped; (3) an assistant-turn block
with any unhandled type is silently dropped; (4) translation never fails
on messages whose turns, blocks and tool-result content elements are
non-nullish.  (A nullish turn, block or tool-result content element makes
translation throw — see the counterexample — so translation is not total
over arbitrary content.) -/
theorem claim10_translation_totality :
    (∀ (bytes : Nat → Nat) (acc : MsgsAcc) (m : JsValue),
      nonNullish m = true → isStringOrArray (jsGet m "content") = false →
      processMessage bytes acc m = .ok acc) ∧
    (∀ (acc : MsgsAcc) (b : JsValue) (t : JsValue),
      getProp b "type" = .ok t → t ≠ .vStr "text" → t ≠ .vStr "tool_result" →
      processUserBlock acc b = .ok acc) ∧
    (∀ (bytes : Nat → Nat) (acc : MsgsAcc) (b : JsValue) (t : JsValue),
      getProp b "type" = .ok t → t ≠ .vStr "thinking" → t ≠ .vStr "text" →
      t ≠ .vStr "tool_use" → processAssistantBlock bytes acc b = .ok acc) ∧
    (∀ (bytes : Nat → Nat) (msgs : List JsValue),
      msgs.all turnTotalOk = true →
      ∃ r, convertMessagesToCodexInput bytes msgs = .ok r) := by
  refine ⟨?_, ?_, ?_, ?_⟩
  · intro bytes acc m hm hc
    simp only [processMessage, getProp_nonNullish m "role" hm, Except_bind_ok,
      normalizeContent_other _ hc]
    split_ifs <;> rfl
  · intro acc b t hp h₁ h₂
    simp only [processUserBlock, hp, Except_bind_ok]
    rw [if_neg h₁, if_neg h₂]
  · intro bytes acc b t hp h₁ h₂ h₃
    simp only [processAssistantBlock, hp, Except_bind_ok]
    rw [if_neg h₁, if_neg h₂, if_neg h₃]
  · intro bytes msgs h
    simp only [List.all_eq_true] at h
    obtain ⟨a, ha⟩ := foldlM_ok (processMessage bytes) msgs
      (fun m hm acc => processMessage_ok bytes acc m (h m hm)) ⟨[], [], 0⟩
    exact ⟨(a.input, a.toolIdMap),
      by simp only [convertMessagesToCodexInput, ha, Except_bind_ok]⟩

/-- C10, counterexample to the claim as stated: a user turn whose content
array holds `null` makes translation throw (reading `.type` of `null`), so
a malformed block does cause translation to fail. -/
theorem claim10_counterexample :
    convertMessagesToCodexInput constBytes
      [jsObj [("role", .vStr "user"), ("content", jsArr [.vNull])]] = .error () := by
  decide
